import Mathlib

/-!
The `confused` tool: dependency-confusion scanner (pip and pipenv readers)

A shallow embedding of `pip.go` and `pipenv.go`.

* A Go `string` is modelled as the list of its code points (`GoString`).  The
  manifest is UTF-8 text; a byte that is not valid UTF-8 is read by Go as the
  rune U+FFFD, which is neither white space nor a delimiter, so it behaves
  like any ordinary character of the list.
* The file system (`ioutil.ReadFile`), the network (`http.Get`) and the TOML
  parser (`toml.Load`) are parameters of the functions that use them.
* Standard output is the list of the write calls made so far.
-/

namespace Confused

/-- A Go string, as the list of its code points. -/
abbrev GoString := List Char

/-- A Go `error` value that is not nil, with its message. -/
structure Error where
  msg : GoString
  deriving DecidableEq, Repr

/-! ## Package `unicode` and package `strings` of the Go standard library -/

/-- Go `unicode.IsSpace`: in Latin-1 the characters tab, newline, vertical tab,
form feed, carriage return, space, U+0085 and U+00A0; above Latin-1 the code
points of the `White_Space` table. -/
def unicode.IsSpace (r : Char) : Bool :=
  let n := r.toNat
  if n ≤ 0xFF then
    n == 0x09 || n == 0x0A || n == 0x0B || n == 0x0C || n == 0x0D || n == 0x20
      || n == 0x85 || n == 0xA0
  else
    n == 0x1680 || (0x2000 ≤ n && n ≤ 0x200A) || n == 0x2028 || n == 0x2029
      || n == 0x202F || n == 0x205F || n == 0x3000

namespace strings

/-- Go `strings.Split(s, sep)` for a separator of one character: the pieces of
`s` between the occurrences of `sep`; a string without `sep` (the empty string
included) gives one piece. -/
def Split : GoString → Char → List GoString
  | [], _ => [[]]
  | c :: cs, sep =>
    if c = sep then [] :: Split cs sep
    else
      match Split cs sep with
      | [] => [[c]]
      | piece :: pieces => (c :: piece) :: pieces

/-- Go `strings.TrimSpace(s)`: `s` without its leading and its trailing white
space, as `unicode.IsSpace` defines it. -/
def TrimSpace (s : GoString) : GoString :=
  (s.dropWhile unicode.IsSpace).rdropWhile unicode.IsSpace

/-- Go `strings.HasPrefix(s, pre)`:
`len(s) >= len(pre) && s[:len(pre)] == pre`. -/
def HasPrefix (s pre : GoString) : Bool :=
  decide (pre.length ≤ s.length) && decide (s.take pre.length = pre)

/-- Go `strings.HasSuffix(s, suf)`:
`len(s) >= len(suf) && s[len(s)-len(suf):] == suf`. -/
def HasSuffix (s suf : GoString) : Bool :=
  decide (suf.length ≤ s.length) && decide (s.drop (s.length - suf.length) = suf)

/-- The loop of Go `strings.FieldsFunc`.  `cur` is the field being read
(`none` stands for `start < 0`), `spans` the fields recorded so far. -/
def FieldsFunc.loop (f : Char → Bool) :
    GoString → Option GoString → List GoString → List GoString
  | [], none, spans => spans
  | [], some cur, spans => spans ++ [cur]
  | r :: rest, none, spans =>
    if f r then loop f rest none spans else loop f rest (some [r]) spans
  | r :: rest, some cur, spans =>
    if f r then loop f rest none (spans ++ [cur])
    else loop f rest (some (cur ++ [r])) spans

/-- Go `strings.FieldsFunc(s, f)`: the maximal runs of characters of `s` that
do not satisfy `f`, in order; no run is empty. -/
def FieldsFunc (s : GoString) (f : Char → Bool) : List GoString :=
  FieldsFunc.loop f s none []

end strings

/-! ## pip.go -/

/-- Modelled from the spec: `inSlice` is called by `pipSplit` and is not among
the source files; the spec's delimiter rule makes it the membership test of a
rune in a slice of runes. -/
def inSlice (r : Char) (slice : List Char) : Bool :=
  slice.any (fun d => d == r)

/-- Go `PipLookup`: the collected package names and the verbosity flag. -/
structure PipLookup where
  Packages : List GoString
  Verbose : Bool
  deriving DecidableEq, Repr

/-- Go `NewPipLookup`. -/
def NewPipLookup (verbose : Bool) : PipLookup :=
  { Packages := [], Verbose := verbose }

/-- Go `(*PipLookup).pipSplit`: whether `r` is one of the delimiters. -/
def PipLookup.pipSplit (_p : PipLookup) (r : Char) : Bool :=
  let delims : List Char := ['=', '<', '>', '!', ' ', '~', '#', '[']
  inSlice r delims

/-- The state of the `for` loop of `ReadPackagesFromFile`: the local variable
`line` (the pending continuation buffer) and the resolver. -/
structure ReadState where
  line : GoString
  p : PipLookup
  deriving DecidableEq, Repr

/-- One iteration of the `for` loop of `(*PipLookup).ReadPackagesFromFile`
(pip.go lines 30 to 49) on the physical line `l`. -/
def PipLookup.readLine (st : ReadState) (l : GoString) : ReadState :=
  let l := strings.TrimSpace l
  if strings.HasPrefix l ['#'] then
    st
  else if l.length > 0 then
    if strings.HasSuffix l ['\\'] then
      { st with line := st.line ++ l.take (l.length - 1) }
    else
      let line := st.line ++ l
      let pkgrow := strings.FieldsFunc line st.p.pipSplit
      if h : pkgrow.length > 0 then
        { line := [],
          p := { st.p with Packages := st.p.Packages ++ [strings.TrimSpace pkgrow[0]] } }
      else
        { line := [], p := st.p }
  else
    st

/-- The outcome of `ioutil.ReadFile` for each file name. -/
abbrev FileSystem := GoString → Except Error GoString

/-- Go `(*PipLookup).ReadPackagesFromFile`: the resolver after the call and
the returned `error` (`none` is nil). -/
def PipLookup.ReadPackagesFromFile (p : PipLookup) (fs : FileSystem)
    (filename : GoString) : PipLookup × Option Error :=
  match fs filename with
  | .error err => (p, some err)
  | .ok rawfile =>
    let st := (strings.Split rawfile '\n').foldl PipLookup.readLine { line := [], p := p }
    (st.p, none)

/-! ## The registry existence check (pip.go and pipenv.go) -/

/-- Go `http.Response`, as far as the program reads it. -/
structure Response where
  Status : GoString
  StatusCode : Int
  deriving DecidableEq, Repr

/-- The outcome of `http.Get` for each URL: a response, or a request error. -/
abbrev HttpGet := GoString → Except Error Response

/-- Go `http.StatusOK`. -/
def http.StatusOK : Int := 200

/-- One write to standard output: the call made and its arguments. -/
inductive Output where
  | Print (s : GoString)
  | Printf (format : GoString) (args : List GoString)
  deriving DecidableEq, Repr

/-- The URL requested for a package name. -/
def projectURL (pkgname : GoString) : GoString :=
  "https://pypi.org/project/".toList ++ pkgname ++ "/".toList

/-- Go `(*PipLookup).isAvailableInPublic`: the returned boolean and standard
output after the call. -/
def PipLookup.isAvailableInPublic (p : PipLookup) (get : HttpGet)
    (pkgname : GoString) (out : List Output) : Bool × List Output :=
  let out :=
    if p.Verbose then
      out ++ [Output.Print ("Checking: https://pypi.org/project/".toList ++ pkgname ++ "/ : ".toList)]
    else out
  match get ("https://pypi.org/project/".toList ++ pkgname ++ "/".toList) with
  | .error err =>
    (false,
      out ++ [Output.Printf
        (" [W] Error when trying to request https://pypi.org/project/".toList ++ pkgname
          ++ "/ : %s\n".toList) [err.msg]])
  | .ok resp =>
    let out := if p.Verbose then out ++ [Output.Printf "%s\n".toList [resp.Status]] else out
    if resp.StatusCode = http.StatusOK then (true, out) else (false, out)

/-- The result of `PackagesNotInPublic`: the resolver after the call, the
returned slice and standard output after the call. -/
structure NotInPublic (ρ : Type) where
  p : ρ
  notavail : List GoString
  out : List Output

/-- Go `(*PipLookup).PackagesNotInPublic`. -/
def PipLookup.PackagesNotInPublic (p : PipLookup) (get : HttpGet)
    (out : List Output) : NotInPublic PipLookup :=
  let r := p.Packages.foldl
    (fun (acc : List GoString × List Output) pkg =>
      let chk := p.isAvailableInPublic get pkg acc.2
      if !chk.1 then (acc.1 ++ [pkg], chk.2) else (acc.1, chk.2))
    ([], out)
  { p := p, notavail := r.1, out := r.2 }

/-! ## go-toml (version 1), as far as pipenv.go uses it -/

/-- A TOML value that is not a table. -/
inductive TomlValue where
  | str (s : GoString)
  | int (i : Int)
  | bool (b : Bool)
  | array (items : List TomlValue)

mutual
/-- go-toml `Tree`: its field `values`, a Go `map[string]interface{}`, given as
the list of its entries in the order in which the parser inserted them (the
order of the keys in the document).  A Go map has no order of its own. -/
inductive Tree where
  | mk (values : List (GoString × Node))
/-- What a `Tree` stores under a key: `*tomlValue`, `*Tree` (a table) or
`[]*Tree` (an array of tables). -/
inductive Node where
  | value (v : TomlValue)
  | tree (t : Tree)
  | trees (ts : List Tree)
end

/-- The field `values` of a `Tree`. -/
def Tree.values : Tree → List (GoString × Node)
  | .mk values => values

/-- The order in which one `range` loop over a Go map visits its keys.  The Go
language leaves it unspecified: all that is known is that every key is visited
once. -/
structure RangeOrder where
  visit : List GoString → List GoString
  perm : ∀ ks, List.Perm (visit ks) ks

/-- go-toml `(*Tree).Keys`: the keys of the top level of the tree, collected by
a `range` loop over the map `values`. -/
def Tree.Keys (t : Tree) (order : RangeOrder) : List GoString :=
  order.visit (t.values.map Prod.fst)

/-- go-toml `(*Tree).GetPath`; `none` is the nil interface. -/
def Tree.GetPath : Tree → List GoString → Option Node
  | t, [] => some (.tree t)
  | t, [key] => t.values.lookup key
  | t, intermediateKey :: key :: keys =>
    match t.values.lookup intermediateKey with
    | some (.tree subtree) => subtree.GetPath (key :: keys)
    | some (.trees node) =>
      match node.getLast? with
      | none => none
      | some subtree => subtree.GetPath (key :: keys)
    | _ => none

/-- go-toml `(*Tree).Get`: the key is a path whose components are separated by
dots. -/
def Tree.Get (t : Tree) (key : GoString) : Option Node :=
  if key = [] then some (.tree t) else t.GetPath (strings.Split key '.')

/-- The outcome of `toml.Load` for each document text. -/
abbrev TomlLoad := GoString → Except Error Tree

/-! ## pipenv.go -/

/-- Go `PipenvLookup`. -/
structure PipenvLookup where
  Packages : List GoString
  Verbose : Bool
  deriving DecidableEq, Repr

/-- Go `NewPipenvLookup`. -/
def NewPipenvLookup (verbose : Bool) : PipenvLookup :=
  { Packages := [], Verbose := verbose }

/-- How a call ends: it returns (the state after it and the value returned), or
a run-time panic stops it (the state reached). -/
inductive Outcome (σ α : Type) where
  | returned (s : σ) (a : α)
  | panicked (s : σ)
  deriving DecidableEq, Repr

/-- Go `(*PipenvLookup).ReadPackagesFromFile`.  `order1` and `order2` are the
orders of the `range` loops of the two calls of `Keys`.  The type assertion
`.(*toml.Tree)` panics on a value that is not a `*Tree`. -/
def PipenvLookup.ReadPackagesFromFile (p : PipenvLookup) (fs : FileSystem)
    (load : TomlLoad) (order1 order2 : RangeOrder) (filename : GoString) :
    Outcome PipenvLookup (Option Error) :=
  match fs filename with
  | .error err => .returned p (some err)
  | .ok rawfile =>
    match load rawfile with
    | .error err => .returned p (some err)
    | .ok config =>
      let step1 : Option PipenvLookup :=
        match config.Get "packages".toList with
        | none => some p
        | some (.tree packages) =>
          some { p with Packages := p.Packages ++ packages.Keys order1 }
        | some _ => none
      match step1 with
      | none => .panicked p
      | some p =>
        match config.Get "dev-packages".toList with
        | none => .returned p none
        | some (.tree dev_packages) =>
          .returned { p with Packages := p.Packages ++ dev_packages.Keys order2 } none
        | some _ => .panicked p

/-- Go `(*PipenvLookup).isAvailableInPublic`. -/
def PipenvLookup.isAvailableInPublic (p : PipenvLookup) (get : HttpGet)
    (pkgname : GoString) (out : List Output) : Bool × List Output :=
  let out :=
    if p.Verbose then
      out ++ [Output.Print ("Checking: https://pypi.org/project/".toList ++ pkgname ++ "/ : ".toList)]
    else out
  match get ("https://pypi.org/project/".toList ++ pkgname ++ "/".toList) with
  | .error err =>
    (false,
      out ++ [Output.Printf
        (" [W] Error when trying to request https://pypi.org/project/".toList ++ pkgname
          ++ "/ : %s\n".toList) [err.msg]])
  | .ok resp =>
    let out := if p.Verbose then out ++ [Output.Printf "%s\n".toList [resp.Status]] else out
    if resp.StatusCode = http.StatusOK then (true, out) else (false, out)

/-- Go `(*PipenvLookup).PackagesNotInPublic`. -/
def PipenvLookup.PackagesNotInPublic (p : PipenvLookup) (get : HttpGet)
    (out : List Output) : NotInPublic PipenvLookup :=
  let r := p.Packages.foldl
    (fun (acc : List GoString × List Output) pkg =>
      let chk := p.isAvailableInPublic get pkg acc.2
      if !chk.1 then (acc.1 ++ [pkg], chk.2) else (acc.1, chk.2))
    ([], out)
  { p := p, notavail := r.1, out := r.2 }

/-! ## The statements of the specification, as definitions -/

/-- The name of a logical line in the words of the specification: the part of
the line before the first delimiter, trimmed. -/
def specName (p : PipLookup) (line : GoString) : GoString :=
  strings.TrimSpace (line.takeWhile (fun c => !p.pipSplit c))

/-- Whether a physical line yields a name, in the words of the specification:
its trimmed form is non-empty, does not begin with `#` and holds at least one
character that is not a delimiter. -/
def yieldsName (p : PipLookup) (l : GoString) : Bool :=
  decide (strings.TrimSpace l ≠ [])
    && !strings.HasPrefix (strings.TrimSpace l) ['#']
    && (strings.TrimSpace l).any (fun c => !p.pipSplit c)

/-- The name a physical line yields when it is a logical line by itself: the
trimmed run of non-delimiters after the leading delimiters of its trimmed
form. -/
def lineName (p : PipLookup) (l : GoString) : Option GoString :=
  if yieldsName p l then
    some (strings.TrimSpace
      (((strings.TrimSpace l).dropWhile p.pipSplit).takeWhile (fun c => !p.pipSplit c)))
  else none

/-- The existence check in the words of the specification: a name is available
when the request for its URL succeeds with status code 200. -/
def registryAvailable (get : HttpGet) (pkgname : GoString) : Bool :=
  match get (projectURL pkgname) with
  | .ok resp => decide (resp.StatusCode = 200)
  | .error _ => false

/-- A mocked registry: status 200 for the URLs of the names in `known`, status
404 for every other URL. -/
def mockRegistry (known : List GoString) : HttpGet :=
  fun url =>
    if known.any (fun n => decide (projectURL n = url)) then
      .ok { Status := "200 OK".toList, StatusCode := 200 }
    else
      .ok { Status := "404 Not Found".toList, StatusCode := 404 }

/-- The key names of the top-level section `name` of a document, in the order
in which the document writes them; no names when the document has no table
under `name`. -/
def sectionKeys (config : Tree) (name : GoString) : List GoString :=
  match config.values.lookup name with
  | some (.tree t) => t.values.map Prod.fst
  | _ => []

/-- Whether the document has, under the top-level key `name`, a table or
nothing at all. -/
def tableOrAbsent (config : Tree) (name : GoString) : Bool :=
  match config.values.lookup name with
  | none => true
  | some (.tree _) => true
  | some _ => false

/-- The `range` order that visits the keys in the order of their insertion. -/
def RangeOrder.insertion : RangeOrder :=
  { visit := fun ks => ks, perm := fun ks => List.Perm.refl ks }

/-- The `range` order that visits the keys last inserted first. -/
def RangeOrder.reversed : RangeOrder :=
  { visit := fun ks => ks.reverse, perm := fun ks => List.reverse_perm ks }

/-- The tree of the document
`[packages]`, `flask = "*"`, `[dev-packages]`, `pytest = "*"`. -/
def pipfileFlaskPytest : Tree :=
  .mk [("packages".toList, .tree (.mk [("flask".toList, .value (.str "*".toList))])),
       ("dev-packages".toList, .tree (.mk [("pytest".toList, .value (.str "*".toList))]))]

/-- The tree of the document
`[[source]]`, `name = "pypi"`, `[packages]`, `flask = "*"`, `requests = "*"`,
`[requires]`, `python_version = "3.9"`; it has no `dev-packages` section. -/
def pipfileNoDev : Tree :=
  .mk [("source".toList, .trees [.mk [("name".toList, .value (.str "pypi".toList))]]),
       ("packages".toList,
          .tree (.mk [("flask".toList, .value (.str "*".toList)),
                      ("requests".toList, .value (.str "*".toList))])),
       ("requires".toList,
          .tree (.mk [("python_version".toList, .value (.str "3.9".toList))]))]

/-- The tree of the document `packages = "flask"`: the top-level key
`packages` holds a string. -/
def pipfilePackagesString : Tree :=
  .mk [("packages".toList, .value (.str "flask".toList))]

/-- The tree of the document `packages = ["flask", "requests"]`: the top-level
key `packages` holds an array. -/
def pipfilePackagesArray : Tree :=
  .mk [("packages".toList,
          .value (.array [.str "flask".toList, .str "requests".toList]))]

/-- The tree of the document `[[packages]]`, `name = "flask"`: the top-level key
`packages` holds an array of tables. -/
def pipfilePackagesTables : Tree :=
  .mk [("packages".toList, .trees [.mk [("name".toList, .value (.str "flask".toList))]])]

/-- The tree of the document `dev-packages = 1`, `[packages]`, `flask = "*"`:
the top-level key `dev-packages` holds a number. -/
def pipfileDevNumber : Tree :=
  .mk [("dev-packages".toList, .value (.int 1)),
       ("packages".toList, .tree (.mk [("flask".toList, .value (.str "*".toList))]))]

/-- Go `strings.Join(lines, "\n")`: the file content whose lines are `lines`. -/
def joinLines : List GoString → GoString
  | [] => []
  | [l] => l
  | l :: l2 :: ls => l ++ '\n' :: joinLines (l2 :: ls)

/-- The write that announces a lookup: the text `Checking: `, the URL and
` : `. -/
def checkingWrite (pkgname : GoString) : Output :=
  Output.Print ("Checking: ".toList ++ projectURL pkgname ++ " : ".toList)

/-- The write that reports the status line of a response. -/
def statusWrite (resp : Response) : Output :=
  Output.Printf "%s\n".toList [resp.Status]

/-- The write that warns of a failed request: the format holds the URL, the
argument is the message of the error. -/
def warningWrite (pkgname : GoString) (err : Error) : Output :=
  Output.Printf
    (" [W] Error when trying to request ".toList ++ projectURL pkgname ++ " : %s\n".toList)
    [err.msg]

/-- What one call of `isAvailableInPublic` writes, by the verbosity flag and
the outcome of the request. -/
def lookupWrites (verbose : Bool) (get : HttpGet) (pkgname : GoString) : List Output :=
  (if verbose then [checkingWrite pkgname] else [])
    ++ (match get (projectURL pkgname) with
        | .error err => [warningWrite pkgname err]
        | .ok resp => if verbose then [statusWrite resp] else [])

/-! ## Lemmas on the string functions -/

theorem strings.FieldsFunc.loop_spans (f : Char → Bool) (s : GoString) :
    ∀ (cur : Option GoString) (spans : List GoString),
      strings.FieldsFunc.loop f s cur spans = spans ++ strings.FieldsFunc.loop f s cur [] := by
  induction s with
  | nil =>
    intro cur spans
    cases cur <;> simp [strings.FieldsFunc.loop]
  | cons r rest ih =>
    intro cur spans
    cases cur with
    | none =>
      simp only [strings.FieldsFunc.loop]
      split
      · exact ih none spans
      · exact ih (some [r]) spans
    | some cur =>
      simp only [strings.FieldsFunc.loop]
      split
      · rw [ih none (spans ++ [cur]), ih none ([] ++ [cur])]
        simp
      · exact ih (some (cur ++ [r])) spans

theorem strings.FieldsFunc.loop_some (f : Char → Bool) (s : GoString) :
    ∀ cur : GoString,
      strings.FieldsFunc.loop f s (some cur) []
        = (cur ++ s.takeWhile (fun c => !f c))
            :: strings.FieldsFunc.loop f (s.dropWhile (fun c => !f c)) none [] := by
  induction s with
  | nil => intro cur; simp [strings.FieldsFunc.loop]
  | cons r rest ih =>
    intro cur
    simp only [strings.FieldsFunc.loop]
    by_cases h : f r = true
    · rw [if_pos h, strings.FieldsFunc.loop_spans]
      simp [List.takeWhile_cons, List.dropWhile_cons, h, strings.FieldsFunc.loop]
    · rw [if_neg h, ih]
      simp [List.takeWhile_cons, List.dropWhile_cons, h]

theorem strings.FieldsFunc.loop_none (f : Char → Bool) (s : GoString) :
    strings.FieldsFunc.loop f s none []
      = strings.FieldsFunc.loop f (s.dropWhile f) none [] := by
  induction s with
  | nil => rfl
  | cons r rest ih =>
    by_cases h : f r = true
    · simp only [strings.FieldsFunc.loop, if_pos h, List.dropWhile_cons_of_pos h]
      exact ih
    · simp [List.dropWhile_cons_of_neg h]

/-- The fields of `s`: none when `s` holds delimiters only; otherwise the first
field is the run of non-delimiters that follows the leading delimiters. -/
theorem strings.FieldsFunc_eq (f : Char → Bool) (s : GoString) :
    strings.FieldsFunc s f
      = if s.dropWhile f = [] then []
        else (s.dropWhile f).takeWhile (fun c => !f c)
          :: strings.FieldsFunc ((s.dropWhile f).dropWhile (fun c => !f c)) f := by
  unfold strings.FieldsFunc
  rw [strings.FieldsFunc.loop_none]
  cases hd : s.dropWhile f with
  | nil => simp [strings.FieldsFunc.loop]
  | cons r rest =>
    have hr : f r = false := by
      have := List.head?_dropWhile_not f s
      rw [hd] at this
      simpa using this
    simp only [strings.FieldsFunc.loop, hr, Bool.false_eq_true, if_false]
    rw [strings.FieldsFunc.loop_some]
    simp [List.takeWhile_cons, List.dropWhile_cons, hr]


theorem strings.FieldsFunc_head? (f : Char → Bool) (s : GoString) :
    (strings.FieldsFunc s f).head?
      = if s.dropWhile f = [] then none
        else some ((s.dropWhile f).takeWhile (fun c => !f c)) := by
  rw [strings.FieldsFunc_eq]
  split <;> simp

theorem strings.HasSuffix_ne_nil {s suf : GoString} (hsuf : suf ≠ [])
    (h : strings.HasSuffix s suf = true) : s ≠ [] := by
  rintro rfl
  simp [strings.HasSuffix] at h
  exact hsuf h

/-! ## Lemmas on one iteration of the reading loop -/

theorem PipLookup.readLine_comment (st : ReadState) (l : GoString)
    (hc : strings.HasPrefix (strings.TrimSpace l) ['#'] = true) :
    PipLookup.readLine st l = st := by
  have hc1 : strings.HasPrefix (strings.TrimSpace l) ['#'] = true := hc
  simp [PipLookup.readLine, hc1]

theorem PipLookup.readLine_blank (st : ReadState) (l : GoString)
    (he : strings.TrimSpace l = []) :
    PipLookup.readLine st l = st := by
  simp [PipLookup.readLine, he]

theorem PipLookup.readLine_continuation (st : ReadState) (l : GoString)
    (hc : strings.HasPrefix (strings.TrimSpace l) ['#'] = false)
    (hb : strings.HasSuffix (strings.TrimSpace l) ['\\'] = true) :
    PipLookup.readLine st l
      = { st with line := st.line
            ++ (strings.TrimSpace l).take ((strings.TrimSpace l).length - 1) } := by
  have hne : strings.TrimSpace l ≠ [] := strings.HasSuffix_ne_nil (by decide) hb
  have hlen : 0 < (strings.TrimSpace l).length := List.length_pos.mpr hne
  have hc1 : strings.HasPrefix (strings.TrimSpace l) ['#'] = false := hc
  have hb1 : strings.HasSuffix (strings.TrimSpace l) ['\\'] = true := hb
  simp [PipLookup.readLine, hc1, hb1, hlen]

theorem PipLookup.readLine_complete (st : ReadState) (l : GoString)
    (hne : strings.TrimSpace l ≠ [])
    (hc : strings.HasPrefix (strings.TrimSpace l) ['#'] = false)
    (hb : strings.HasSuffix (strings.TrimSpace l) ['\\'] = false) :
    PipLookup.readLine st l
      = { line := [],
          p := { st.p with Packages := st.p.Packages ++
            ((strings.FieldsFunc (st.line ++ strings.TrimSpace l) st.p.pipSplit).head?.map
              strings.TrimSpace).toList } } := by
  have hlen : 0 < (strings.TrimSpace l).length := List.length_pos.mpr hne
  have hc1 : strings.HasPrefix (strings.TrimSpace l) ['#'] = false := hc
  have hb1 : strings.HasSuffix (strings.TrimSpace l) ['\\'] = false := hb
  simp only [PipLookup.readLine, String.toList, hc1, hb1, hlen, gt_iff_lt, if_true,
    Bool.false_eq_true, if_false]
  cases hf : strings.FieldsFunc (st.line ++ strings.TrimSpace l) st.p.pipSplit with
  | nil => simp
  | cons a rest => simp


/-! ## The requirements reader: name extraction -/

/-- C1 (as stated, refuted): the file `==1.0` holds one completed logical line,
`==1.0`; the part before its first delimiter is empty, yet the name appended
is `1.0`, the first field after the leading delimiters. -/
theorem PipLookup.readLine_name_not_before_first_delimiter :
    strings.TrimSpace "==1.0".toList = "==1.0".toList
    ∧ strings.HasPrefix "==1.0".toList ['#'] = false
    ∧ strings.HasSuffix "==1.0".toList ['\\'] = false
    ∧ specName (NewPipLookup false) "==1.0".toList = []
    ∧ (PipLookup.readLine { line := [], p := NewPipLookup false } "==1.0".toList).p.Packages
        = ["1.0".toList]
    ∧ (PipLookup.readLine { line := [], p := NewPipLookup false } "==1.0".toList).p.Packages
        ≠ [specName (NewPipLookup false) "==1.0".toList]
    ∧ (PipLookup.ReadPackagesFromFile (NewPipLookup false)
        (fun _ => .ok "==1.0".toList) "requirements.txt".toList).1.Packages
        = ["1.0".toList] := by
  decide

/-- C1 (amended): a physical line whose trimmed form is non-empty, does not
start with `#` and does not end with a backslash completes the logical line
`st.line ++ TrimSpace l`.  The loop then empties the buffer, keeps `Verbose`,
and appends nothing when the logical line holds delimiters only; otherwise it
appends the trimmed run of non-delimiters that follows the leading delimiters
of the logical line.  When the logical line does not begin with a delimiter
this is the part before its first delimiter, trimmed. -/
theorem PipLookup.readLine_appends_first_field (st : ReadState) (l : GoString)
    (hne : strings.TrimSpace l ≠ [])
    (hc : strings.HasPrefix (strings.TrimSpace l) ['#'] = false)
    (hb : strings.HasSuffix (strings.TrimSpace l) ['\\'] = false) :
    (PipLookup.readLine st l).line = []
    ∧ (PipLookup.readLine st l).p.Verbose = st.p.Verbose
    ∧ (PipLookup.readLine st l).p.Packages
        = (if (st.line ++ strings.TrimSpace l).dropWhile st.p.pipSplit = [] then
            st.p.Packages
          else
            st.p.Packages ++
              [strings.TrimSpace
                (((st.line ++ strings.TrimSpace l).dropWhile st.p.pipSplit).takeWhile
                  (fun c => !st.p.pipSplit c))])
    ∧ ((∀ c, (st.line ++ strings.TrimSpace l).head? = some c → st.p.pipSplit c = false) →
        (PipLookup.readLine st l).p.Packages
          = st.p.Packages ++ [specName st.p (st.line ++ strings.TrimSpace l)]) := by
  rw [PipLookup.readLine_complete st l hne hc hb, strings.FieldsFunc_head?]
  refine ⟨rfl, rfl, ?_, ?_⟩
  · split <;> simp
  · intro hhead
    cases hline : st.line ++ strings.TrimSpace l with
    | nil =>
      have : strings.TrimSpace l = [] := (List.append_eq_nil.mp hline).2
      exact absurd this hne
    | cons c rest =>
      have hcd : st.p.pipSplit c = false := hhead c (by rw [hline]; rfl)
      simp [specName, List.dropWhile_cons, hcd]

/-- C1 (amended), at a concrete line: `numpy>=1.20` read with an empty buffer. -/
theorem PipLookup.readLine_appends_first_field_witness :
    (PipLookup.readLine { line := [], p := NewPipLookup false } "numpy>=1.20".toList).p.Packages
      = ["numpy".toList] := by
  have h := PipLookup.readLine_appends_first_field
    { line := [], p := NewPipLookup false } "numpy>=1.20".toList
    (by decide) (by decide) (by decide)
  rw [h.2.2.2 (by decide)]
  decide


/-! ## The requirements reader: files without continuation lines -/

theorem PipLookup.pipSplit_congr (p q : PipLookup) : p.pipSplit = q.pipSplit := rfl

theorem PipLookup.readLine_alone (p : PipLookup) (l : GoString)
    (hb : strings.HasSuffix (strings.TrimSpace l) ['\\'] = false) :
    PipLookup.readLine { line := [], p := p } l
      = { line := [],
          p := { p with Packages := p.Packages ++ (lineName p l).toList } } := by
  by_cases hc : strings.HasPrefix (strings.TrimSpace l) ['#'] = true
  · rw [PipLookup.readLine_comment _ _ hc]
    simp [lineName, yieldsName, hc]
  · have hc0 : strings.HasPrefix (strings.TrimSpace l) ['#'] = false := by
      simpa using hc
    by_cases he : strings.TrimSpace l = []
    · rw [PipLookup.readLine_blank _ _ he]
      simp [lineName, yieldsName, he]
    · rw [PipLookup.readLine_complete _ _ he hc0 hb, strings.FieldsFunc_head?]
      simp only [List.nil_append]
      by_cases hd : (strings.TrimSpace l).dropWhile p.pipSplit = []
      · have hall : ∀ x ∈ strings.TrimSpace l, p.pipSplit x = true := by
          simpa using hd
        have hany : (strings.TrimSpace l).any (fun c => !p.pipSplit c) = false := by
          rw [List.any_eq_false]
          intro x hx
          simp [hall x hx]
        simp [lineName, yieldsName, hd, hany]
      · have hany : (strings.TrimSpace l).any (fun c => !p.pipSplit c) = true := by
          rw [List.any_eq_true]
          by_contra hno
          apply hd
          rw [List.dropWhile_eq_nil_iff]
          intro x hx
          by_contra hx2
          exact hno ⟨x, hx, by simpa using hx2⟩
        simp [lineName, yieldsName, hd, hany, he, hc0]

theorem PipLookup.foldl_readLine_alone (lines : List GoString) :
    ∀ p : PipLookup,
      (∀ l ∈ lines, strings.HasSuffix (strings.TrimSpace l) ['\\'] = false) →
      lines.foldl PipLookup.readLine { line := [], p := p }
        = { line := [],
            p := { p with Packages := p.Packages ++ lines.filterMap (lineName p) } } := by
  induction lines with
  | nil => intro p _; simp
  | cons l rest ih =>
    intro p h
    rw [List.foldl_cons, PipLookup.readLine_alone p l (h l (List.mem_cons_self _ _)),
      ih _ (fun x hx => h x (List.mem_cons_of_mem _ hx))]
    have hname : ∀ q : PipLookup, lineName q = lineName p := fun _ => rfl
    cases hl : lineName p l <;> simp [List.filterMap_cons, hl, hname]

theorem yieldsName_eq_isSome (p : PipLookup) (l : GoString) :
    (lineName p l).isSome = yieldsName p l := by
  unfold lineName
  split <;> simp_all


/-- C2 (as stated, refuted): in the file made of the lines `foo\ ` (a space
follows the backslash) and `bar`, no line ends with a backslash and both lines
are non-empty after trimming, are no comments and hold a non-delimiter; yet
the first line is read as a continuation, and one name, `foobar`, is produced
instead of two. -/
theorem PipLookup.ReadPackagesFromFile_trailing_space_continuation :
    (∀ l ∈ strings.Split "foo\\ \nbar".toList '\n', strings.HasSuffix l ['\\'] = false)
    ∧ ((strings.Split "foo\\ \nbar".toList '\n').filter
        (yieldsName (NewPipLookup false))).length = 2
    ∧ (PipLookup.ReadPackagesFromFile (NewPipLookup false)
        (fun _ => .ok "foo\\ \nbar".toList) "requirements.txt".toList).1.Packages
        = ["foobar".toList] := by
  decide

/-- C2 (amended): for every file content in which no line has a trimmed form
that ends with a backslash, `ReadPackagesFromFile` on a fresh resolver returns
nil and yields, in file order, exactly one name for each line whose trimmed
form is non-empty, does not begin with `#` and holds at least one character
that is not a delimiter, and nothing for any other line. -/
theorem PipLookup.ReadPackagesFromFile_one_name_per_line (verbose : Bool)
    (fs : FileSystem) (filename content : GoString)
    (hread : fs filename = .ok content)
    (hnc : ∀ l ∈ strings.Split content '\n',
      strings.HasSuffix (strings.TrimSpace l) ['\\'] = false) :
    PipLookup.ReadPackagesFromFile (NewPipLookup verbose) fs filename
      = ({ Packages := (strings.Split content '\n').filterMap (lineName (NewPipLookup verbose)),
           Verbose := verbose }, none)
    ∧ (∀ l, (lineName (NewPipLookup verbose) l).isSome = yieldsName (NewPipLookup verbose) l)
    ∧ (PipLookup.ReadPackagesFromFile (NewPipLookup verbose) fs filename).1.Packages.length
        = ((strings.Split content '\n').filter (yieldsName (NewPipLookup verbose))).length := by
  have hmain : PipLookup.ReadPackagesFromFile (NewPipLookup verbose) fs filename
      = ({ Packages := (strings.Split content '\n').filterMap (lineName (NewPipLookup verbose)),
           Verbose := verbose }, none) := by
    simp only [PipLookup.ReadPackagesFromFile, hread]
    rw [PipLookup.foldl_readLine_alone _ _ hnc]
    simp [NewPipLookup]
  refine ⟨hmain, yieldsName_eq_isSome _, ?_⟩
  rw [hmain]
  simp only
  generalize strings.Split content '\n' = lines
  induction lines with
  | nil => rfl
  | cons l rest ih =>
    have hs := yieldsName_eq_isSome (NewPipLookup verbose) l
    cases hl : lineName (NewPipLookup verbose) l with
    | none =>
      rw [hl] at hs
      have hy : yieldsName (NewPipLookup verbose) l = false := by simpa using hs.symm
      simp [List.filterMap_cons, hl, List.filter_cons, hy, ih]
    | some a =>
      rw [hl] at hs
      have hy : yieldsName (NewPipLookup verbose) l = true := by simpa using hs.symm
      simp [List.filterMap_cons, hl, List.filter_cons, hy, ih]

/-- C2 (amended), on the file of the specification: `requests==2.28.0`, a
comment line, a blank line and `numpy>=1.20; python_version>="3.7"` yield
exactly `requests` and `numpy`. -/
theorem PipLookup.ReadPackagesFromFile_one_name_per_line_witness :
    PipLookup.ReadPackagesFromFile (NewPipLookup false)
        (fun _ => .ok
          "requests==2.28.0\n# comment line\n\nnumpy>=1.20; python_version>=\"3.7\"".toList)
        "requirements.txt".toList
      = ({ Packages := ["requests".toList, "numpy".toList], Verbose := false }, none) := by
  rw [(PipLookup.ReadPackagesFromFile_one_name_per_line false
    (fun _ => .ok
      "requests==2.28.0\n# comment line\n\nnumpy>=1.20; python_version>=\"3.7\"".toList)
    "requirements.txt".toList
    "requests==2.28.0\n# comment line\n\nnumpy>=1.20; python_version>=\"3.7\"".toList
    rfl (by decide)).1]
  decide


/-! ## The registry existence check -/

theorem PipLookup.isAvailableInPublic_fst (p : PipLookup) (get : HttpGet)
    (pkgname : GoString) (out : List Output) :
    (p.isAvailableInPublic get pkgname out).1 = registryAvailable get pkgname := by
  unfold PipLookup.isAvailableInPublic registryAvailable projectURL
  cases get ("https://pypi.org/project/".toList ++ pkgname ++ "/".toList) with
  | error err => rfl
  | ok resp =>
    by_cases h : resp.StatusCode = 200 <;> simp [h, http.StatusOK]

theorem PipenvLookup.isAvailableInPublic_fst_pipenv (p : PipenvLookup) (get : HttpGet)
    (pkgname : GoString) (out : List Output) :
    (p.isAvailableInPublic get pkgname out).1 = registryAvailable get pkgname := by
  unfold PipenvLookup.isAvailableInPublic registryAvailable projectURL
  cases get ("https://pypi.org/project/".toList ++ pkgname ++ "/".toList) with
  | error err => rfl
  | ok resp =>
    by_cases h : resp.StatusCode = 200 <;> simp [h, http.StatusOK]

theorem PipLookup.notavail_foldl (p : PipLookup) (get : HttpGet) (pkgs : List GoString) :
    ∀ (acc : List GoString) (out : List Output),
      (pkgs.foldl
        (fun (acc : List GoString × List Output) pkg =>
          let chk := p.isAvailableInPublic get pkg acc.2
          if !chk.1 then (acc.1 ++ [pkg], chk.2) else (acc.1, chk.2))
        (acc, out)).1
        = acc ++ pkgs.filter (fun n => !registryAvailable get n) := by
  induction pkgs with
  | nil => intro acc out; simp
  | cons pkg rest ih =>
    intro acc out
    rw [List.foldl_cons]
    dsimp only
    rw [PipLookup.isAvailableInPublic_fst p get pkg out]
    cases h : registryAvailable get pkg
    · rw [if_pos (by rfl), ih]
      simp [List.filter_cons, h]
    · rw [if_neg (by simp), ih]
      simp [List.filter_cons, h]

theorem PipenvLookup.notavail_foldl_pipenv (p : PipenvLookup) (get : HttpGet)
    (pkgs : List GoString) :
    ∀ (acc : List GoString) (out : List Output),
      (pkgs.foldl
        (fun (acc : List GoString × List Output) pkg =>
          let chk := p.isAvailableInPublic get pkg acc.2
          if !chk.1 then (acc.1 ++ [pkg], chk.2) else (acc.1, chk.2))
        (acc, out)).1
        = acc ++ pkgs.filter (fun n => !registryAvailable get n) := by
  induction pkgs with
  | nil => intro acc out; simp
  | cons pkg rest ih =>
    intro acc out
    rw [List.foldl_cons]
    dsimp only
    rw [PipenvLookup.isAvailableInPublic_fst_pipenv p get pkg out]
    cases h : registryAvailable get pkg
    · rw [if_pos (by rfl), ih]
      simp [List.filter_cons, h]
    · rw [if_neg (by simp), ih]
      simp [List.filter_cons, h]

theorem PipLookup.notavail_eq_filter (p : PipLookup) (get : HttpGet) (out : List Output) :
    (p.PackagesNotInPublic get out).notavail
      = p.Packages.filter (fun n => !registryAvailable get n) := by
  unfold PipLookup.PackagesNotInPublic
  dsimp only
  rw [PipLookup.notavail_foldl]
  simp

theorem PipenvLookup.notavail_eq_filter_pipenv (p : PipenvLookup) (get : HttpGet)
    (out : List Output) :
    (p.PackagesNotInPublic get out).notavail
      = p.Packages.filter (fun n => !registryAvailable get n) := by
  unfold PipenvLookup.PackagesNotInPublic
  dsimp only
  rw [PipenvLookup.notavail_foldl_pipenv]
  simp

/-- C3: `PackagesNotInPublic`, of both readers, returns the entries of
`Packages` for which the existence check is false, in their order and with
duplicates kept, and leaves the resolver unchanged; with a registry that
answers 200 for `requests` and 404 for `zzz-definitely-unregistered-zzz` the
result is the second name alone. -/
theorem PackagesNotInPublic_eq_filter :
    (∀ (p : PipLookup) (get : HttpGet) (out : List Output),
      (p.PackagesNotInPublic get out).notavail
          = p.Packages.filter (fun n => !(p.isAvailableInPublic get n out).1)
        ∧ (p.PackagesNotInPublic get out).notavail
          = p.Packages.filter (fun n => !registryAvailable get n)
        ∧ (p.PackagesNotInPublic get out).p = p)
    ∧ (∀ (p : PipenvLookup) (get : HttpGet) (out : List Output),
      (p.PackagesNotInPublic get out).notavail
          = p.Packages.filter (fun n => !(p.isAvailableInPublic get n out).1)
        ∧ (p.PackagesNotInPublic get out).notavail
          = p.Packages.filter (fun n => !registryAvailable get n)
        ∧ (p.PackagesNotInPublic get out).p = p)
    ∧ (∀ verbose : Bool,
      (PipLookup.PackagesNotInPublic
          { Packages := ["requests".toList, "zzz-definitely-unregistered-zzz".toList],
            Verbose := verbose }
          (mockRegistry ["requests".toList]) []).notavail
        = ["zzz-definitely-unregistered-zzz".toList]
      ∧ (PipenvLookup.PackagesNotInPublic
          { Packages := ["requests".toList, "zzz-definitely-unregistered-zzz".toList],
            Verbose := verbose }
          (mockRegistry ["requests".toList]) []).notavail
        = ["zzz-definitely-unregistered-zzz".toList]) := by
  refine ⟨fun p get out => ⟨?_, PipLookup.notavail_eq_filter p get out, rfl⟩,
    fun p get out => ⟨?_, PipenvLookup.notavail_eq_filter_pipenv p get out, rfl⟩, ?_⟩
  · simp only [PipLookup.isAvailableInPublic_fst]
    exact PipLookup.notavail_eq_filter p get out
  · simp only [PipenvLookup.isAvailableInPublic_fst_pipenv]
    exact PipenvLookup.notavail_eq_filter_pipenv p get out
  · intro verbose
    rw [PipLookup.notavail_eq_filter, PipenvLookup.notavail_eq_filter_pipenv]
    dsimp only
    decide

/-- C4: `isAvailableInPublic`, of both readers, returns true exactly when the
request completed without error and the status code is 200; it returns false
on every request error and on every other status code. -/
theorem isAvailableInPublic_iff_status_200 :
    (∀ (p : PipLookup) (get : HttpGet) (pkgname : GoString) (out : List Output),
      ((p.isAvailableInPublic get pkgname out).1 = true
          ↔ ∃ resp, get (projectURL pkgname) = .ok resp ∧ resp.StatusCode = 200)
        ∧ (∀ err, get (projectURL pkgname) = .error err →
            (p.isAvailableInPublic get pkgname out).1 = false)
        ∧ (∀ resp, get (projectURL pkgname) = .ok resp → resp.StatusCode ≠ 200 →
            (p.isAvailableInPublic get pkgname out).1 = false))
    ∧ (∀ (p : PipenvLookup) (get : HttpGet) (pkgname : GoString) (out : List Output),
      ((p.isAvailableInPublic get pkgname out).1 = true
          ↔ ∃ resp, get (projectURL pkgname) = .ok resp ∧ resp.StatusCode = 200)
        ∧ (∀ err, get (projectURL pkgname) = .error err →
            (p.isAvailableInPublic get pkgname out).1 = false)
        ∧ (∀ resp, get (projectURL pkgname) = .ok resp → resp.StatusCode ≠ 200 →
            (p.isAvailableInPublic get pkgname out).1 = false)) := by
  have key : ∀ (get : HttpGet) (pkgname : GoString),
      (registryAvailable get pkgname = true
          ↔ ∃ resp, get (projectURL pkgname) = .ok resp ∧ resp.StatusCode = 200)
        ∧ (∀ err, get (projectURL pkgname) = .error err →
            registryAvailable get pkgname = false)
        ∧ (∀ resp, get (projectURL pkgname) = .ok resp → resp.StatusCode ≠ 200 →
            registryAvailable get pkgname = false) := by
    intro get pkgname
    unfold registryAvailable
    cases get (projectURL pkgname) with
    | error err => simp
    | ok resp => simp
  refine ⟨fun p get pkgname out => ?_, fun p get pkgname out => ?_⟩
  · rw [PipLookup.isAvailableInPublic_fst]
    exact key get pkgname
  · rw [PipenvLookup.isAvailableInPublic_fst_pipenv]
    exact key get pkgname


/-- C5: when the request for a name fails with a network error, the check
answers false and `PackagesNotInPublic`, of both readers, which is a total
function that returns a plain list, includes every occurrence of that name
of `Packages` in its result. -/
theorem PackagesNotInPublic_keeps_failed_lookup (get : HttpGet) (pkgname : GoString)
    (err : Error) (hfail : get (projectURL pkgname) = .error err) :
    (∀ (p : PipLookup) (out : List Output),
      (p.isAvailableInPublic get pkgname out).1 = false
        ∧ (p.PackagesNotInPublic get out).notavail.count pkgname = p.Packages.count pkgname
        ∧ (pkgname ∈ p.Packages → pkgname ∈ (p.PackagesNotInPublic get out).notavail))
    ∧ (∀ (p : PipenvLookup) (out : List Output),
      (p.isAvailableInPublic get pkgname out).1 = false
        ∧ (p.PackagesNotInPublic get out).notavail.count pkgname = p.Packages.count pkgname
        ∧ (pkgname ∈ p.Packages → pkgname ∈ (p.PackagesNotInPublic get out).notavail)) := by
  have hreg : registryAvailable get pkgname = false := by
    simp [registryAvailable, hfail]
  refine ⟨fun p out => ⟨?_, ?_, ?_⟩, fun p out => ⟨?_, ?_, ?_⟩⟩
  · rw [PipLookup.isAvailableInPublic_fst, hreg]
  · rw [PipLookup.notavail_eq_filter]
    exact List.count_filter (by simp [hreg])
  · intro hmem
    rw [PipLookup.notavail_eq_filter]
    exact List.mem_filter.mpr ⟨hmem, by simp [hreg]⟩
  · rw [PipenvLookup.isAvailableInPublic_fst_pipenv, hreg]
  · rw [PipenvLookup.notavail_eq_filter_pipenv]
    exact List.count_filter (by simp [hreg])
  · intro hmem
    rw [PipenvLookup.notavail_eq_filter_pipenv]
    exact List.mem_filter.mpr ⟨hmem, by simp [hreg]⟩

/-- C5, at a concrete registry: every request is refused, and both occurrences
of `foo` in the package list are reported. -/
theorem PackagesNotInPublic_keeps_failed_lookup_witness :
    (PipLookup.PackagesNotInPublic
        { Packages := ["foo".toList, "bar".toList, "foo".toList], Verbose := false }
        (fun _ => .error { msg := "connection refused".toList }) []).notavail.count
        "foo".toList = 2
    ∧ (PipenvLookup.PackagesNotInPublic
        { Packages := ["foo".toList, "bar".toList, "foo".toList], Verbose := false }
        (fun _ => .error { msg := "connection refused".toList }) []).notavail.count
        "foo".toList = 2 := by
  have h := PackagesNotInPublic_keeps_failed_lookup
    (fun _ => .error { msg := "connection refused".toList }) "foo".toList
    { msg := "connection refused".toList } rfl
  refine ⟨?_, ?_⟩
  · rw [(h.1 _ []).2.1]
    decide
  · rw [(h.2 _ []).2.1]
    decide


/-! ## Lines of a file -/

theorem strings.Split_ne_nil (s : GoString) (sep : Char) : strings.Split s sep ≠ [] := by
  cases s with
  | nil => simp [strings.Split]
  | cons c cs =>
    simp only [strings.Split]
    split
    · simp
    · split <;> simp

theorem strings.Split_of_not_mem (sep : Char) (s : GoString) (h : sep ∉ s) :
    strings.Split s sep = [s] := by
  induction s with
  | nil => rfl
  | cons c cs ih =>
    have hc : ¬ c = sep := fun e => h (by simp [e])
    have hcs : sep ∉ cs := fun e => h (List.mem_cons_of_mem _ e)
    simp [strings.Split, hc, ih hcs]

theorem strings.Split_cons_of_ne (sep c : Char) (cs : GoString) (hc : ¬ c = sep) :
    strings.Split (c :: cs) sep
      = match strings.Split cs sep with
        | [] => [[c]]
        | piece :: pieces => (c :: piece) :: pieces := by
  simp [strings.Split, hc]

theorem strings.Split_append_sep (sep : Char) (l : GoString) (h : sep ∉ l) (c : GoString) :
    strings.Split (c ++ sep :: l) sep = strings.Split c sep ++ [l] := by
  induction c with
  | nil => simp [strings.Split, strings.Split_of_not_mem sep l h]
  | cons a cs ih =>
    by_cases ha : a = sep
    · simp [strings.Split, ha, ← ih]
    · rw [List.cons_append, strings.Split_cons_of_ne sep a _ ha,
        strings.Split_cons_of_ne sep a _ ha, ih]
      cases hs : strings.Split cs sep with
      | nil => exact absurd hs (strings.Split_ne_nil cs sep)
      | cons piece pieces => simp

/-! ## The requirements reader: line continuation -/

/-- C6 (as stated, refuted): the physical line that follows a continuation is
trimmed before it is joined.  For `foo==1.0 \` and `  and-more` the logical
line is `foo==1.0 and-more`, with one space; for `foo\` and `  bar` the name
is `foobar`, where joining the untrimmed line would give `foo`.  A comment
that ends with a backslash is skipped and joins nothing, and a logical line
of delimiters only yields no name. -/
theorem PipLookup.readLine_continuation_trims_next_line :
    (PipLookup.readLine { line := [], p := NewPipLookup false } "foo==1.0 \\".toList).line
        ++ strings.TrimSpace "  and-more".toList = "foo==1.0 and-more".toList
    ∧ "foo==1.0 and-more".toList ≠ "foo==1.0   and-more".toList
    ∧ (PipLookup.ReadPackagesFromFile (NewPipLookup false)
        (fun _ => .ok "foo\\\n  bar".toList) "requirements.txt".toList).1.Packages
        = ["foobar".toList]
    ∧ specName (NewPipLookup false) ("foo".toList ++ "  bar".toList) = "foo".toList
    ∧ (PipLookup.ReadPackagesFromFile (NewPipLookup false)
        (fun _ => .ok "# c \\\nbar".toList) "requirements.txt".toList).1.Packages
        = ["bar".toList]
    ∧ (PipLookup.ReadPackagesFromFile (NewPipLookup false)
        (fun _ => .ok "=\\\n=".toList) "requirements.txt".toList).1.Packages = [] := by
  decide

/-- C6 (amended): a line whose trimmed form ends with a backslash and does not
start with `#` emits no package: its trimmed form without the final character
is appended to the pending buffer.  A next physical line whose trimmed form is
non-empty, is no comment and does not end with a backslash is trimmed and
joined to the buffer; the logical line so formed is split by `FieldsFunc` and
yields at most one name, the first field trimmed, and the buffer is emptied.
A file made of two such lines yields exactly that. -/
theorem PipLookup.readLine_continuation_joins (st : ReadState) (l1 l2 : GoString)
    (hc1 : strings.HasPrefix (strings.TrimSpace l1) ['#'] = false)
    (hb1 : strings.HasSuffix (strings.TrimSpace l1) ['\\'] = true)
    (hne2 : strings.TrimSpace l2 ≠ [])
    (hc2 : strings.HasPrefix (strings.TrimSpace l2) ['#'] = false)
    (hb2 : strings.HasSuffix (strings.TrimSpace l2) ['\\'] = false) :
    (PipLookup.readLine st l1).p = st.p
    ∧ (PipLookup.readLine st l1).line
        = st.line ++ (strings.TrimSpace l1).take ((strings.TrimSpace l1).length - 1)
    ∧ PipLookup.readLine (PipLookup.readLine st l1) l2
        = { line := [],
            p := { st.p with Packages := st.p.Packages ++
              ((strings.FieldsFunc
                  (st.line ++ (strings.TrimSpace l1).take ((strings.TrimSpace l1).length - 1)
                    ++ strings.TrimSpace l2) st.p.pipSplit).head?.map
                strings.TrimSpace).toList } }
    ∧ ('\n' ∉ l1 → '\n' ∉ l2 → ∀ (verbose : Bool) (fs : FileSystem) (filename : GoString),
        fs filename = .ok (l1 ++ '\n' :: l2) →
        PipLookup.ReadPackagesFromFile (NewPipLookup verbose) fs filename
          = ({ Packages :=
                ((strings.FieldsFunc
                    ((strings.TrimSpace l1).take ((strings.TrimSpace l1).length - 1)
                      ++ strings.TrimSpace l2) (NewPipLookup verbose).pipSplit).head?.map
                  strings.TrimSpace).toList,
               Verbose := verbose }, none)) := by
  have hstep : ∀ st : ReadState, PipLookup.readLine (PipLookup.readLine st l1) l2
      = { line := [],
          p := { st.p with Packages := st.p.Packages ++
            ((strings.FieldsFunc
                (st.line ++ (strings.TrimSpace l1).take ((strings.TrimSpace l1).length - 1)
                  ++ strings.TrimSpace l2) st.p.pipSplit).head?.map
              strings.TrimSpace).toList } } := by
    intro st
    rw [PipLookup.readLine_continuation st l1 hc1 hb1,
      PipLookup.readLine_complete _ l2 hne2 hc2 hb2]
  refine ⟨?_, ?_, hstep st, ?_⟩
  · rw [PipLookup.readLine_continuation st l1 hc1 hb1]
  · rw [PipLookup.readLine_continuation st l1 hc1 hb1]
  · intro hn1 hn2 verbose fs filename hread
    simp only [PipLookup.ReadPackagesFromFile, hread]
    rw [strings.Split_append_sep '\n' l2 hn2 l1, strings.Split_of_not_mem '\n' l1 hn1]
    simp only [List.singleton_append, List.foldl_cons, List.foldl_nil]
    rw [hstep]
    simp [NewPipLookup]

/-- C6 (amended), on the lines of the specification: `foo==1.0 \` followed by
`  and-more` is split as `foo==1.0 and-more` and yields exactly `foo`. -/
theorem PipLookup.readLine_continuation_joins_witness :
    PipLookup.readLine
        (PipLookup.readLine { line := [], p := NewPipLookup false } "foo==1.0 \\".toList)
        "  and-more".toList
      = { line := [],
          p := { Packages :=
                  ((strings.FieldsFunc "foo==1.0 and-more".toList
                    (NewPipLookup false).pipSplit).head?.map strings.TrimSpace).toList,
                 Verbose := false } }
    ∧ PipLookup.ReadPackagesFromFile (NewPipLookup false)
        (fun _ => .ok "foo==1.0 \\\n  and-more".toList) "requirements.txt".toList
      = ({ Packages := ["foo".toList], Verbose := false }, none) := by
  have h := PipLookup.readLine_continuation_joins
    { line := [], p := NewPipLookup false } "foo==1.0 \\".toList "  and-more".toList
    (by decide) (by decide) (by decide) (by decide) (by decide)
  refine ⟨?_, ?_⟩
  · rw [h.2.2.1]
    decide
  · rw [h.2.2.2 (by decide) (by decide) false
      (fun _ => .ok "foo==1.0 \\\n  and-more".toList) "requirements.txt".toList rfl]
    decide


theorem PipLookup.readLine_pending_keeps_resolver (st : ReadState) (l : GoString)
    (hb : strings.HasSuffix (strings.TrimSpace l) ['\\'] = true) :
    (PipLookup.readLine st l).p = st.p := by
  by_cases hc : strings.HasPrefix (strings.TrimSpace l) ['#'] = true
  · rw [PipLookup.readLine_comment st l hc]
  · rw [PipLookup.readLine_continuation st l (by simpa using hc) hb]

/-- C7: a continuation pending at the end of the file is dropped.  When the
last line `l` holds no newline and its trimmed form ends with a backslash,
reading the content `c`, a newline and `l` returns nil and leaves the resolver
exactly as reading `c` alone does. -/
theorem PipLookup.ReadPackagesFromFile_drops_pending_buffer (p : PipLookup)
    (fs fs0 : FileSystem) (filename filename0 c l : GoString)
    (hnl : '\n' ∉ l)
    (hb : strings.HasSuffix (strings.TrimSpace l) ['\\'] = true)
    (hread : fs filename = .ok (c ++ '\n' :: l))
    (hread0 : fs0 filename0 = .ok c) :
    (p.ReadPackagesFromFile fs filename).2 = none
    ∧ (p.ReadPackagesFromFile fs filename).1.Packages
        = (p.ReadPackagesFromFile fs0 filename0).1.Packages
    ∧ p.ReadPackagesFromFile fs filename = p.ReadPackagesFromFile fs0 filename0 := by
  have hall : p.ReadPackagesFromFile fs filename = p.ReadPackagesFromFile fs0 filename0 := by
    simp only [PipLookup.ReadPackagesFromFile, hread, hread0]
    rw [strings.Split_append_sep '\n' l hnl c, List.foldl_append]
    simp only [List.foldl_cons, List.foldl_nil]
    rw [PipLookup.readLine_pending_keeps_resolver _ l hb]
  refine ⟨?_, ?_, hall⟩
  · simp [PipLookup.ReadPackagesFromFile, hread]
  · rw [hall]

/-- C7, at a concrete file: `requests==2.28.0` followed by the unfinished
continuation `numpy \` yields what `requests==2.28.0` alone yields. -/
theorem PipLookup.ReadPackagesFromFile_drops_pending_buffer_witness :
    PipLookup.ReadPackagesFromFile (NewPipLookup false)
        (fun _ => .ok "requests==2.28.0\nnumpy \\".toList) "requirements.txt".toList
      = PipLookup.ReadPackagesFromFile (NewPipLookup false)
        (fun _ => .ok "requests==2.28.0".toList) "requirements.txt".toList
    ∧ (PipLookup.ReadPackagesFromFile (NewPipLookup false)
        (fun _ => .ok "requests==2.28.0\nnumpy \\".toList) "requirements.txt".toList).1.Packages
      = ["requests".toList] :=
  ⟨(PipLookup.ReadPackagesFromFile_drops_pending_buffer (NewPipLookup false)
      (fun _ => .ok "requests==2.28.0\nnumpy \\".toList)
      (fun _ => .ok "requests==2.28.0".toList)
      "requirements.txt".toList "requirements.txt".toList
      "requests==2.28.0".toList "numpy \\".toList (by decide) (by decide) rfl rfl).2.2,
    by decide⟩

/-- C10: `ReadPackagesFromFile` of the requirements reader returns an error
exactly when reading the file fails, and then it returns that read error; for
every content that can be read it returns nil. -/
theorem PipLookup.ReadPackagesFromFile_error_iff_read_fails (p : PipLookup)
    (fs : FileSystem) (filename : GoString) :
    (∀ err, (p.ReadPackagesFromFile fs filename).2 = some err ↔ fs filename = .error err)
    ∧ ((p.ReadPackagesFromFile fs filename).2 ≠ none ↔ ∃ err, fs filename = .error err)
    ∧ (∀ content, fs filename = .ok content → (p.ReadPackagesFromFile fs filename).2 = none) := by
  unfold PipLookup.ReadPackagesFromFile
  cases fs filename with
  | error e => simp
  | ok content => simp


/-! ## The Pipfile reader -/

theorem Tree.Get_packages (config : Tree) :
    config.Get "packages".toList = config.values.lookup "packages".toList := by
  have hs : strings.Split "packages".toList '.' = ["packages".toList] := by decide
  have hne : ¬ "packages".toList = [] := by decide
  simp only [Tree.Get, if_neg hne, hs, Tree.GetPath]
  rfl

theorem Tree.Get_dev_packages (config : Tree) :
    config.Get "dev-packages".toList = config.values.lookup "dev-packages".toList := by
  have hs : strings.Split "dev-packages".toList '.' = ["dev-packages".toList] := by decide
  have hne : ¬ "dev-packages".toList = [] := by decide
  simp only [Tree.Get, if_neg hne, hs, Tree.GetPath]
  rfl

theorem RangeOrder.visit_nil (order : RangeOrder) : order.visit [] = [] :=
  List.Perm.eq_nil (order.perm [])

theorem PipenvLookup.ReadPackagesFromFile_eq (p : PipenvLookup) (fs : FileSystem)
    (load : TomlLoad) (order1 order2 : RangeOrder) (filename rawfile : GoString)
    (config : Tree)
    (hread : fs filename = .ok rawfile) (hload : load rawfile = .ok config)
    (hpk : tableOrAbsent config "packages".toList = true)
    (hdev : tableOrAbsent config "dev-packages".toList = true) :
    p.ReadPackagesFromFile fs load order1 order2 filename
      = .returned
          { p with Packages := p.Packages
              ++ order1.visit (sectionKeys config "packages".toList)
              ++ order2.visit (sectionKeys config "dev-packages".toList) }
          none := by
  simp only [PipenvLookup.ReadPackagesFromFile, hread, hload, Tree.Get_packages,
    Tree.Get_dev_packages, sectionKeys]
  unfold tableOrAbsent at hpk hdev
  cases h1 : config.values.lookup "packages".toList with
  | none =>
    cases h2 : config.values.lookup "dev-packages".toList with
    | none => simp [RangeOrder.visit_nil]
    | some node2 =>
      rw [h2] at hdev
      cases node2 with
      | tree t2 => simp [RangeOrder.visit_nil, Tree.Keys]
      | value v => simp at hdev
      | trees ts => simp at hdev
  | some node1 =>
    rw [h1] at hpk
    cases node1 with
    | value v => simp at hpk
    | trees ts => simp at hpk
    | tree t1 =>
      cases h2 : config.values.lookup "dev-packages".toList with
      | none => simp [RangeOrder.visit_nil, Tree.Keys]
      | some node2 =>
        rw [h2] at hdev
        cases node2 with
        | tree t2 => simp [Tree.Keys]
        | value v => simp at hdev
        | trees ts => simp at hdev


/-- C8 (the code at the failing input): the document `packages = "flask"`
parses and has no `packages` section and no `dev-packages` section, so by the
claim no name is appended and nil is returned; the code panics at the type
assertion instead.  The document `dev-packages = 1`, `[packages]`,
`flask = "*"` fails in the same way at the second assertion.  On every
document in which `packages` and `dev-packages` are tables or absent the code
does what the claim says: it returns nil and appends the key names of
`packages` followed by those of `dev-packages` and nothing else, an absent
section contributing no name; so it does on the document of the
specification and on a document without `dev-packages`. -/
theorem PipenvLookup.ReadPackagesFromFile_sections_or_panic :
    (sectionKeys pipfilePackagesString "packages".toList = []
      ∧ sectionKeys pipfilePackagesString "dev-packages".toList = []
      ∧ PipenvLookup.ReadPackagesFromFile (NewPipenvLookup false)
          (fun _ => .ok "packages = \"flask\"".toList)
          (fun _ => .ok pipfilePackagesString) RangeOrder.insertion RangeOrder.insertion
          "Pipfile".toList
        = .panicked { Packages := [], Verbose := false }
      ∧ PipenvLookup.ReadPackagesFromFile (NewPipenvLookup false)
          (fun _ => .ok "packages = \"flask\"".toList)
          (fun _ => .ok pipfilePackagesString) RangeOrder.insertion RangeOrder.insertion
          "Pipfile".toList
        ≠ .returned { Packages := [], Verbose := false } none)
    ∧ (sectionKeys pipfileDevNumber "packages".toList = ["flask".toList]
      ∧ sectionKeys pipfileDevNumber "dev-packages".toList = []
      ∧ PipenvLookup.ReadPackagesFromFile (NewPipenvLookup false)
          (fun _ => .ok "dev-packages = 1\n[packages]\nflask = \"*\"".toList)
          (fun _ => .ok pipfileDevNumber) RangeOrder.insertion RangeOrder.insertion
          "Pipfile".toList
        ≠ .returned { Packages := ["flask".toList], Verbose := false } none)
    ∧ (∀ (p : PipenvLookup) (fs : FileSystem) (load : TomlLoad) (order1 order2 : RangeOrder)
        (filename rawfile : GoString) (config : Tree),
        fs filename = .ok rawfile → load rawfile = .ok config →
        tableOrAbsent config "packages".toList = true →
        tableOrAbsent config "dev-packages".toList = true →
        p.ReadPackagesFromFile fs load order1 order2 filename
            = .returned
                { p with Packages := p.Packages
                    ++ order1.visit (sectionKeys config "packages".toList)
                    ++ order2.visit (sectionKeys config "dev-packages".toList) }
                none
          ∧ (∀ name,
              name ∈ order1.visit (sectionKeys config "packages".toList)
                  ++ order2.visit (sectionKeys config "dev-packages".toList)
                ↔ name ∈ sectionKeys config "packages".toList
                  ∨ name ∈ sectionKeys config "dev-packages".toList)
          ∧ (config.values.lookup "packages".toList = none →
              order1.visit (sectionKeys config "packages".toList) = [])
          ∧ (config.values.lookup "dev-packages".toList = none →
              order2.visit (sectionKeys config "dev-packages".toList) = []))
    ∧ PipenvLookup.ReadPackagesFromFile (NewPipenvLookup false)
        (fun _ => .ok "[packages]\nflask = \"*\"\n[dev-packages]\npytest = \"*\"".toList)
        (fun _ => .ok pipfileFlaskPytest) RangeOrder.reversed RangeOrder.reversed
        "Pipfile".toList
      = .returned { Packages := ["flask".toList, "pytest".toList], Verbose := false } none
    ∧ PipenvLookup.ReadPackagesFromFile (NewPipenvLookup false)
        (fun _ => .ok [])
        (fun _ => .ok pipfileNoDev) RangeOrder.insertion RangeOrder.insertion
        "Pipfile".toList
      = .returned { Packages := ["flask".toList, "requests".toList], Verbose := false }
          none := by
  refine ⟨by decide, by decide, ?_, by decide, by decide⟩
  intro p fs load order1 order2 filename rawfile config hread hload hpk hdev
  refine ⟨PipenvLookup.ReadPackagesFromFile_eq p fs load order1 order2 filename rawfile
    config hread hload hpk hdev, ?_, ?_, ?_⟩
  · intro name
    rw [List.mem_append, (order1.perm _).mem_iff, (order2.perm _).mem_iff]
  · intro h
    unfold sectionKeys
    rw [h]
    exact RangeOrder.visit_nil _
  · intro h
    unfold sectionKeys
    rw [h]
    exact RangeOrder.visit_nil _

/-- C9 (as stated, refuted): the `packages` section of the document writes
`flask` and then `requests`; when the `range` loop of `Keys` visits the map
in the opposite order the names appended are `requests`, `flask`. -/
theorem PipenvLookup.ReadPackagesFromFile_keys_not_in_document_order :
    sectionKeys pipfileNoDev "packages".toList = ["flask".toList, "requests".toList]
    ∧ PipenvLookup.ReadPackagesFromFile (NewPipenvLookup false)
        (fun _ => .ok [])
        (fun _ => .ok pipfileNoDev) RangeOrder.reversed RangeOrder.reversed
        "Pipfile".toList
      = .returned { Packages := ["requests".toList, "flask".toList], Verbose := false }
          none := by
  decide

/-- C9 (amended): for a document that parses and in which `packages` and
`dev-packages`, when present, are tables, the names appended for each of the
two sections are the key names of the section in the order in which the
`range` loop of `Keys` visits the map: a rearrangement of the keys as the
document writes them, each key once, and the document order itself when the
loop visits the keys in the order of their insertion. -/
theorem PipenvLookup.ReadPackagesFromFile_keys_in_range_order (p : PipenvLookup)
    (fs : FileSystem) (load : TomlLoad) (order1 order2 : RangeOrder)
    (filename rawfile : GoString) (config : Tree)
    (hread : fs filename = .ok rawfile) (hload : load rawfile = .ok config)
    (hpk : tableOrAbsent config "packages".toList = true)
    (hdev : tableOrAbsent config "dev-packages".toList = true) :
    p.ReadPackagesFromFile fs load order1 order2 filename
        = .returned
            { p with Packages := p.Packages
                ++ order1.visit (sectionKeys config "packages".toList)
                ++ order2.visit (sectionKeys config "dev-packages".toList) }
            none
    ∧ List.Perm (order1.visit (sectionKeys config "packages".toList))
        (sectionKeys config "packages".toList)
    ∧ List.Perm (order2.visit (sectionKeys config "dev-packages".toList))
        (sectionKeys config "dev-packages".toList)
    ∧ p.ReadPackagesFromFile fs load RangeOrder.insertion RangeOrder.insertion filename
        = .returned
            { p with Packages := p.Packages
                ++ sectionKeys config "packages".toList
                ++ sectionKeys config "dev-packages".toList }
            none := by
  refine ⟨PipenvLookup.ReadPackagesFromFile_eq p fs load order1 order2 filename rawfile
      config hread hload hpk hdev,
    order1.perm _, order2.perm _, ?_⟩
  exact PipenvLookup.ReadPackagesFromFile_eq p fs load RangeOrder.insertion
    RangeOrder.insertion filename rawfile config hread hload hpk hdev

/-- C9 (amended), on a document whose `packages` section writes `flask` and
then `requests`: read with a `range` loop in the opposite order it yields
`requests`, `flask`, and with a loop in insertion order `flask`, `requests`. -/
theorem PipenvLookup.ReadPackagesFromFile_keys_in_range_order_witness :
    PipenvLookup.ReadPackagesFromFile (NewPipenvLookup true)
        (fun _ => .ok [])
        (fun _ => .ok pipfileNoDev) RangeOrder.reversed RangeOrder.reversed
        "Pipfile".toList
      = .returned { Packages := ["requests".toList, "flask".toList], Verbose := true }
          none
    ∧ PipenvLookup.ReadPackagesFromFile (NewPipenvLookup true)
        (fun _ => .ok [])
        (fun _ => .ok pipfileNoDev) RangeOrder.insertion RangeOrder.insertion
        "Pipfile".toList
      = .returned { Packages := ["flask".toList, "requests".toList], Verbose := true }
          none := by
  have h := PipenvLookup.ReadPackagesFromFile_keys_in_range_order (NewPipenvLookup true)
    (fun _ => .ok [])
    (fun _ => .ok pipfileNoDev) RangeOrder.reversed RangeOrder.reversed
    "Pipfile".toList [] pipfileNoDev rfl rfl (by decide) (by decide)
  refine ⟨?_, ?_⟩
  · rw [h.1]
    decide
  · rw [h.2.2.2]
    decide

/-! ## The Pipfile reader: values that are no tables -/

/-- C11 (the code at the failing inputs): each of these documents is readable
and parses, and `ReadPackagesFromFile` neither returns nil nor returns an
error: the type assertion panics when `packages` holds a string, an array or
an array of tables, and when `dev-packages` holds a number; in the last case
the names of `packages` have been appended before the panic.  The first
assertion panics whenever `packages` holds a value that is no table. -/
theorem PipenvLookup.ReadPackagesFromFile_panics_on_non_table :
    PipenvLookup.ReadPackagesFromFile (NewPipenvLookup false)
        (fun _ => .ok "packages = \"flask\"".toList)
        (fun _ => .ok pipfilePackagesString) RangeOrder.insertion RangeOrder.insertion
        "Pipfile".toList
      = .panicked { Packages := [], Verbose := false }
    ∧ PipenvLookup.ReadPackagesFromFile (NewPipenvLookup false)
        (fun _ => .ok "packages = [\"flask\", \"requests\"]".toList)
        (fun _ => .ok pipfilePackagesArray) RangeOrder.insertion RangeOrder.insertion
        "Pipfile".toList
      = .panicked { Packages := [], Verbose := false }
    ∧ PipenvLookup.ReadPackagesFromFile (NewPipenvLookup false)
        (fun _ => .ok "[[packages]]\nname = \"flask\"".toList)
        (fun _ => .ok pipfilePackagesTables) RangeOrder.insertion RangeOrder.insertion
        "Pipfile".toList
      = .panicked { Packages := [], Verbose := false }
    ∧ PipenvLookup.ReadPackagesFromFile (NewPipenvLookup false)
        (fun _ => .ok "dev-packages = 1\n[packages]\nflask = \"*\"".toList)
        (fun _ => .ok pipfileDevNumber) RangeOrder.insertion RangeOrder.insertion
        "Pipfile".toList
      = .panicked { Packages := ["flask".toList], Verbose := false }
    ∧ (∀ (p : PipenvLookup) (fs : FileSystem) (load : TomlLoad) (order1 order2 : RangeOrder)
        (filename rawfile : GoString) (config : Tree),
        fs filename = .ok rawfile → load rawfile = .ok config →
        tableOrAbsent config "packages".toList = false →
        p.ReadPackagesFromFile fs load order1 order2 filename = .panicked p) := by
  refine ⟨by decide, by decide, by decide, by decide, ?_⟩
  intro p fs load order1 order2 filename rawfile config hread hload hpk
  simp only [PipenvLookup.ReadPackagesFromFile, hread, hload, Tree.Get_packages]
  unfold tableOrAbsent at hpk
  cases h1 : config.values.lookup "packages".toList with
  | none => rw [h1] at hpk; simp at hpk
  | some node =>
    rw [h1] at hpk
    cases node with
    | tree t => simp at hpk
    | value v => rfl
    | trees ts => rfl


/-! ## The requirements reader: the list grows at its end -/

theorem PipLookup.readLine_prepend (names : List GoString) (verbose : Bool)
    (st : ReadState) (l : GoString) :
    PipLookup.readLine
        { line := st.line, p := { Packages := names ++ st.p.Packages, Verbose := verbose } } l
      = { line := (PipLookup.readLine st l).line,
          p := { Packages := names ++ (PipLookup.readLine st l).p.Packages,
                 Verbose := verbose } } := by
  by_cases hc : strings.HasPrefix (strings.TrimSpace l) ['#'] = true
  · rw [PipLookup.readLine_comment _ l hc, PipLookup.readLine_comment st l hc]
  · have hc0 : strings.HasPrefix (strings.TrimSpace l) ['#'] = false := by simpa using hc
    by_cases he : strings.TrimSpace l = []
    · rw [PipLookup.readLine_blank _ l he, PipLookup.readLine_blank st l he]
    · by_cases hb : strings.HasSuffix (strings.TrimSpace l) ['\\'] = true
      · rw [PipLookup.readLine_continuation _ l hc0 hb,
          PipLookup.readLine_continuation st l hc0 hb]
      · have hb0 : strings.HasSuffix (strings.TrimSpace l) ['\\'] = false := by
          simpa using hb
        rw [PipLookup.readLine_complete _ l he hc0 hb0,
          PipLookup.readLine_complete st l he hc0 hb0]
        simp only [List.append_assoc]
        rfl

theorem PipLookup.foldl_readLine_prepend (names : List GoString) (verbose : Bool)
    (lines : List GoString) :
    ∀ st : ReadState,
      lines.foldl PipLookup.readLine
          { line := st.line, p := { Packages := names ++ st.p.Packages, Verbose := verbose } }
        = { line := (lines.foldl PipLookup.readLine st).line,
            p := { Packages := names ++ (lines.foldl PipLookup.readLine st).p.Packages,
                   Verbose := verbose } } := by
  induction lines with
  | nil => intro st; rfl
  | cons l rest ih =>
    intro st
    rw [List.foldl_cons, List.foldl_cons, PipLookup.readLine_prepend, ih]

theorem PipLookup.ReadPackagesFromFile_prepend (p : PipLookup) (verbose : Bool)
    (fs : FileSystem) (filename content : GoString) (hread : fs filename = .ok content) :
    p.ReadPackagesFromFile fs filename
      = ({ Packages := p.Packages
              ++ ((NewPipLookup verbose).ReadPackagesFromFile fs filename).1.Packages,
           Verbose := p.Verbose }, none) := by
  simp only [PipLookup.ReadPackagesFromFile, hread]
  have h := PipLookup.foldl_readLine_prepend p.Packages p.Verbose
    (strings.Split content '\n') { line := [], p := NewPipLookup verbose }
  simp only [NewPipLookup, List.append_nil] at h
  rw [show ({ line := [], p := p } : ReadState)
      = { line := [], p := { Packages := p.Packages, Verbose := p.Verbose } } from rfl, h]
  rfl


theorem PipLookup.ReadPackagesFromFile_fresh_congr (v1 v2 : Bool) (fs1 fs2 : FileSystem)
    (fn1 fn2 content : GoString)
    (h1 : fs1 fn1 = .ok content) (h2 : fs2 fn2 = .ok content) :
    ((NewPipLookup v1).ReadPackagesFromFile fs1 fn1).1.Packages
      = ((NewPipLookup v2).ReadPackagesFromFile fs2 fn2).1.Packages := by
  rw [PipLookup.ReadPackagesFromFile_prepend (NewPipLookup v1) v2 fs1 fn1 content h1]
  simp [PipLookup.ReadPackagesFromFile, h1, h2, NewPipLookup]

/-- C13: `ReadPackagesFromFile` of the requirements reader appends.  After the
call on a readable content the list is the list before the call followed by
the list a fresh resolver obtains from the same content, `Verbose` is
unchanged and nil is returned; reading the file a second time appends the
list of the file once more. -/
theorem PipLookup.ReadPackagesFromFile_extends_list (p : PipLookup) (fs : FileSystem)
    (filename content : GoString) (hread : fs filename = .ok content) :
    (∀ (verbose : Bool) (fs0 : FileSystem) (filename0 : GoString),
      fs0 filename0 = .ok content →
      (p.ReadPackagesFromFile fs filename).1.Packages
          = p.Packages ++ ((NewPipLookup verbose).ReadPackagesFromFile fs0 filename0).1.Packages
        ∧ ((p.ReadPackagesFromFile fs filename).1.ReadPackagesFromFile fs filename).1.Packages
          = p.Packages
            ++ ((NewPipLookup verbose).ReadPackagesFromFile fs0 filename0).1.Packages
            ++ ((NewPipLookup verbose).ReadPackagesFromFile fs0 filename0).1.Packages)
    ∧ (p.ReadPackagesFromFile fs filename).1.Verbose = p.Verbose
    ∧ (p.ReadPackagesFromFile fs filename).2 = none := by
  refine ⟨?_, ?_, ?_⟩
  · intro verbose fs0 filename0 hread0
    have hfresh := PipLookup.ReadPackagesFromFile_fresh_congr verbose verbose fs0 fs
      filename0 filename content hread0 hread
    rw [hfresh]
    have hone := PipLookup.ReadPackagesFromFile_prepend p verbose fs filename content hread
    refine ⟨by rw [hone], ?_⟩
    rw [PipLookup.ReadPackagesFromFile_prepend _ verbose fs filename content hread, hone]
  · rw [PipLookup.ReadPackagesFromFile_prepend p false fs filename content hread]
  · rw [PipLookup.ReadPackagesFromFile_prepend p false fs filename content hread]

/-- C13, at a concrete resolver: the list holds `old` before the call, and the
file `requests==2.28.0`, `numpy` is read once and then a second time. -/
theorem PipLookup.ReadPackagesFromFile_extends_list_witness :
    (PipLookup.ReadPackagesFromFile { Packages := ["old".toList], Verbose := true }
        (fun _ => .ok "requests==2.28.0\nnumpy".toList) "requirements.txt".toList).1.Packages
      = ["old".toList, "requests".toList, "numpy".toList]
    ∧ ((PipLookup.ReadPackagesFromFile { Packages := ["old".toList], Verbose := true }
        (fun _ => .ok "requests==2.28.0\nnumpy".toList)
        "requirements.txt".toList).1.ReadPackagesFromFile
        (fun _ => .ok "requests==2.28.0\nnumpy".toList) "requirements.txt".toList).1.Packages
      = ["old".toList, "requests".toList, "numpy".toList, "requests".toList,
          "numpy".toList] := by
  have h := (PipLookup.ReadPackagesFromFile_extends_list
    { Packages := ["old".toList], Verbose := true }
    (fun _ => .ok "requests==2.28.0\nnumpy".toList) "requirements.txt".toList
    "requests==2.28.0\nnumpy".toList rfl).1 false
    (fun _ => .ok "requests==2.28.0\nnumpy".toList) "requirements.txt".toList rfl
  refine ⟨?_, ?_⟩
  · rw [h.1]
    decide
  · rw [h.2]
    decide

/-! ## Two resolvers on the same file -/

/-- C12 (as stated, refuted): two fresh Pipfile resolvers read the same
document, whose `packages` section holds `flask` and `requests`; the `range`
loop of one visits the keys in insertion order, that of the other in the
opposite order, and the two package lists differ. -/
theorem PipenvLookup.ReadPackagesFromFile_order_differs_between_runs :
    PipenvLookup.ReadPackagesFromFile (NewPipenvLookup false)
        (fun _ => .ok [])
        (fun _ => .ok pipfileNoDev) RangeOrder.insertion RangeOrder.insertion
        "Pipfile".toList
      = .returned { Packages := ["flask".toList, "requests".toList], Verbose := false } none
    ∧ PipenvLookup.ReadPackagesFromFile (NewPipenvLookup false)
        (fun _ => .ok [])
        (fun _ => .ok pipfileNoDev) RangeOrder.reversed RangeOrder.reversed
        "Pipfile".toList
      = .returned { Packages := ["requests".toList, "flask".toList], Verbose := false } none
    ∧ ["flask".toList, "requests".toList] ≠ ["requests".toList, "flask".toList] := by
  decide

/-- C12 (amended): two fresh requirements resolvers that read the same content
end with identical ordered package lists.  Two fresh Pipfile resolvers that
read the same document, in which `packages` and `dev-packages` are tables or
absent, both return nil, and each ends with the names of `packages` followed
by the names of `dev-packages`: the two runs hold the same names section by
section, the names of a section in one run being a rearrangement of the
names of that section in the other; the lists are identical when the `range`
loops of the two runs visit the keys in the same order. -/
theorem ReadPackagesFromFile_two_instances (content : GoString)
    (fs1 fs2 : FileSystem) (fn1 fn2 : GoString)
    (h1 : fs1 fn1 = .ok content) (h2 : fs2 fn2 = .ok content) :
    (∀ v1 v2 : Bool,
      ((NewPipLookup v1).ReadPackagesFromFile fs1 fn1).1.Packages
        = ((NewPipLookup v2).ReadPackagesFromFile fs2 fn2).1.Packages)
    ∧ (∀ (v1 v2 : Bool) (load : TomlLoad) (config : Tree)
        (a1 a2 b1 b2 : RangeOrder),
        load content = .ok config →
        tableOrAbsent config "packages".toList = true →
        tableOrAbsent config "dev-packages".toList = true →
        (NewPipenvLookup v1).ReadPackagesFromFile fs1 load a1 a2 fn1
            = .returned
                { Packages := a1.visit (sectionKeys config "packages".toList)
                    ++ a2.visit (sectionKeys config "dev-packages".toList),
                  Verbose := v1 }
                none
          ∧ (NewPipenvLookup v2).ReadPackagesFromFile fs2 load b1 b2 fn2
            = .returned
                { Packages := b1.visit (sectionKeys config "packages".toList)
                    ++ b2.visit (sectionKeys config "dev-packages".toList),
                  Verbose := v2 }
                none
          ∧ List.Perm (a1.visit (sectionKeys config "packages".toList))
              (sectionKeys config "packages".toList)
          ∧ List.Perm (b1.visit (sectionKeys config "packages".toList))
              (sectionKeys config "packages".toList)
          ∧ List.Perm (a2.visit (sectionKeys config "dev-packages".toList))
              (sectionKeys config "dev-packages".toList)
          ∧ List.Perm (b2.visit (sectionKeys config "dev-packages".toList))
              (sectionKeys config "dev-packages".toList)
          ∧ List.Perm (a1.visit (sectionKeys config "packages".toList))
              (b1.visit (sectionKeys config "packages".toList))
          ∧ List.Perm (a2.visit (sectionKeys config "dev-packages".toList))
              (b2.visit (sectionKeys config "dev-packages".toList))
          ∧ List.Perm
              (a1.visit (sectionKeys config "packages".toList)
                ++ a2.visit (sectionKeys config "dev-packages".toList))
              (b1.visit (sectionKeys config "packages".toList)
                ++ b2.visit (sectionKeys config "dev-packages".toList))
          ∧ (a1.visit = b1.visit → a2.visit = b2.visit →
              a1.visit (sectionKeys config "packages".toList)
                  ++ a2.visit (sectionKeys config "dev-packages".toList)
                = b1.visit (sectionKeys config "packages".toList)
                  ++ b2.visit (sectionKeys config "dev-packages".toList))) := by
  refine ⟨fun v1 v2 =>
    PipLookup.ReadPackagesFromFile_fresh_congr v1 v2 fs1 fs2 fn1 fn2 content h1 h2, ?_⟩
  intro v1 v2 load config a1 a2 b1 b2 hload hpk hdev
  have hr1 := PipenvLookup.ReadPackagesFromFile_eq (NewPipenvLookup v1) fs1 load a1 a2 fn1
    content config h1 hload hpk hdev
  have hr2 := PipenvLookup.ReadPackagesFromFile_eq (NewPipenvLookup v2) fs2 load b1 b2 fn2
    content config h2 hload hpk hdev
  simp only [NewPipenvLookup, List.nil_append] at hr1 hr2
  have hpkp := (a1.perm (sectionKeys config "packages".toList)).trans
    (b1.perm (sectionKeys config "packages".toList)).symm
  have hdevp := (a2.perm (sectionKeys config "dev-packages".toList)).trans
    (b2.perm (sectionKeys config "dev-packages".toList)).symm
  refine ⟨hr1, hr2, a1.perm _, b1.perm _, a2.perm _, b2.perm _, hpkp, hdevp,
    List.Perm.append hpkp hdevp, ?_⟩
  intro e1 e2
  rw [e1, e2]

/-- C12 (amended), at a concrete file and a concrete document: two fresh
requirements resolvers, one verbose and one not, read `requests==2.28.0`,
`numpy`; two fresh Pipfile resolvers read the document of the specification,
one with `range` loops in insertion order and one in the opposite order. -/
theorem ReadPackagesFromFile_two_instances_witness :
    ((NewPipLookup true).ReadPackagesFromFile
        (fun _ => .ok "requests==2.28.0\nnumpy".toList) "requirements.txt".toList).1.Packages
      = ((NewPipLookup false).ReadPackagesFromFile
        (fun _ => .ok "requests==2.28.0\nnumpy".toList) "req.txt".toList).1.Packages
    ∧ (NewPipenvLookup true).ReadPackagesFromFile
        (fun _ => .ok "[packages]\nflask = \"*\"\n[dev-packages]\npytest = \"*\"".toList)
        (fun _ => .ok pipfileFlaskPytest) RangeOrder.insertion RangeOrder.insertion
        "Pipfile".toList
      = .returned { Packages := ["flask".toList, "pytest".toList], Verbose := true } none
    ∧ (NewPipenvLookup false).ReadPackagesFromFile
        (fun _ => .ok "[packages]\nflask = \"*\"\n[dev-packages]\npytest = \"*\"".toList)
        (fun _ => .ok pipfileFlaskPytest) RangeOrder.reversed RangeOrder.reversed
        "Pipfile".toList
      = .returned { Packages := ["flask".toList, "pytest".toList], Verbose := false }
          none := by
  have hpip := (ReadPackagesFromFile_two_instances "requests==2.28.0\nnumpy".toList
    (fun _ => .ok "requests==2.28.0\nnumpy".toList)
    (fun _ => .ok "requests==2.28.0\nnumpy".toList)
    "requirements.txt".toList "req.txt".toList rfl rfl).1 true false
  have hpipenv := (ReadPackagesFromFile_two_instances
    "[packages]\nflask = \"*\"\n[dev-packages]\npytest = \"*\"".toList
    (fun _ => .ok "[packages]\nflask = \"*\"\n[dev-packages]\npytest = \"*\"".toList)
    (fun _ => .ok "[packages]\nflask = \"*\"\n[dev-packages]\npytest = \"*\"".toList)
    "Pipfile".toList "Pipfile".toList rfl rfl).2 true false
    (fun _ => .ok pipfileFlaskPytest) pipfileFlaskPytest
    RangeOrder.insertion RangeOrder.insertion RangeOrder.reversed RangeOrder.reversed
    rfl (by decide) (by decide)
  refine ⟨hpip, ?_, ?_⟩
  · rw [hpipenv.1]
    decide
  · rw [hpipenv.2.1]
    decide

/-! ## Deleting a line of a file -/

theorem strings.Split_not_mem (sep : Char) (s : GoString) :
    ∀ x ∈ strings.Split s sep, sep ∉ x := by
  induction s with
  | nil => intro x hx; simp [strings.Split] at hx; simp [hx]
  | cons c cs ih =>
    intro x hx
    by_cases hc : c = sep
    · simp only [strings.Split, if_pos hc, List.mem_cons] at hx
      rcases hx with rfl | hx
      · simp
      · exact ih x hx
    · rw [strings.Split_cons_of_ne sep c cs hc] at hx
      cases hs : strings.Split cs sep with
      | nil => exact absurd hs (strings.Split_ne_nil cs sep)
      | cons piece pieces =>
        rw [hs] at hx ih
        simp only [List.mem_cons] at hx
        rcases hx with rfl | hx
        · intro hmem
          rcases List.mem_cons.mp hmem with h | h
          · exact hc h.symm
          · exact ih piece (List.mem_cons_self _ _) h
        · exact ih x (List.mem_cons_of_mem _ hx)

theorem strings.Split_prepend (sep : Char) (rest : GoString) (l : GoString) (h : sep ∉ l) :
    strings.Split (l ++ sep :: rest) sep = l :: strings.Split rest sep := by
  induction l with
  | nil => simp [strings.Split]
  | cons a cs ih =>
    have ha : ¬ a = sep := fun e => h (by simp [e])
    have hcs : sep ∉ cs := fun e => h (List.mem_cons_of_mem _ e)
    rw [List.cons_append, strings.Split_cons_of_ne sep a _ ha, ih hcs]

theorem strings.Split_joinLines (ls : List GoString) (hne : ls ≠ [])
    (hnl : ∀ x ∈ ls, '\n' ∉ x) :
    strings.Split (joinLines ls) '\n' = ls := by
  induction ls with
  | nil => exact absurd rfl hne
  | cons l rest ih =>
    cases rest with
    | nil =>
      simp only [joinLines]
      exact strings.Split_of_not_mem '\n' l (hnl l (List.mem_cons_self _ _))
    | cons l2 ls =>
      simp only [joinLines]
      rw [strings.Split_prepend '\n' _ l (hnl l (List.mem_cons_self _ _)),
        ih (by simp) (fun x hx => hnl x (List.mem_cons_of_mem _ hx))]

theorem PipLookup.foldl_readLine_joinLines (st : ReadState) (ls : List GoString)
    (hnl : ∀ x ∈ ls, '\n' ∉ x) :
    (strings.Split (joinLines ls) '\n').foldl PipLookup.readLine st
      = ls.foldl PipLookup.readLine st := by
  cases ls with
  | nil =>
    have hb : strings.TrimSpace [] = [] := by decide
    simp [joinLines, strings.Split, PipLookup.readLine_blank st [] hb]
  | cons l rest => rw [strings.Split_joinLines _ (by simp) hnl]

theorem PipLookup.readLine_skip (st : ReadState) (l : GoString)
    (hl : strings.TrimSpace l = [] ∨ strings.HasPrefix (strings.TrimSpace l) ['#'] = true) :
    PipLookup.readLine st l = st := by
  rcases hl with he | hc
  · exact PipLookup.readLine_blank st l he
  · exact PipLookup.readLine_comment st l hc

theorem eraseIdx_split_at {α : Type} (lines : List α) (i : Nat) (l : α)
    (hi : lines[i]? = some l) :
    lines = lines.take i ++ l :: lines.drop (i + 1)
    ∧ lines.eraseIdx i = lines.take i ++ lines.drop (i + 1) := by
  obtain ⟨hlt, hget⟩ := List.getElem?_eq_some_iff.mp hi
  refine ⟨?_, List.eraseIdx_eq_take_drop_succ _ _⟩
  rw [← hget, ← List.drop_eq_getElem_cons hlt, List.take_append_drop]

/-- C14: comment and blank lines are inert.  A physical line `l` whose trimmed
form is empty or starts with `#` leaves the loop state, pending buffer
included, as it is; and for every file content, the file obtained by deleting
such a line, whatever its position, gives the same resolver and the same
returned value. -/
theorem PipLookup.ReadPackagesFromFile_comment_and_blank_inert (l : GoString)
    (hl : strings.TrimSpace l = [] ∨ strings.HasPrefix (strings.TrimSpace l) ['#'] = true) :
    (∀ st : ReadState, PipLookup.readLine st l = st)
    ∧ (∀ (p : PipLookup) (fs fs0 : FileSystem) (filename filename0 content : GoString)
        (i : Nat),
        (strings.Split content '\n')[i]? = some l →
        fs filename = .ok content →
        fs0 filename0 = .ok (joinLines ((strings.Split content '\n').eraseIdx i)) →
        p.ReadPackagesFromFile fs0 filename0 = p.ReadPackagesFromFile fs filename) := by
  refine ⟨fun st => PipLookup.readLine_skip st l hl, ?_⟩
  intro p fs fs0 filename filename0 content i hi hread hread0
  simp only [PipLookup.ReadPackagesFromFile, hread, hread0]
  rw [PipLookup.foldl_readLine_joinLines _ _
    (fun x hx => strings.Split_not_mem '\n' content x (List.mem_of_mem_eraseIdx hx))]
  obtain ⟨hsplit, herase⟩ := eraseIdx_split_at _ i l hi
  rw [herase]
  conv_rhs => rw [hsplit]
  simp only [List.foldl_append, List.foldl_cons, PipLookup.readLine_skip _ l hl]

/-- C14, at a concrete file: the comment between `foo==1.0 \` and `  and-more`
is deleted, and the package list is `foo` with it and without it. -/
theorem PipLookup.ReadPackagesFromFile_comment_and_blank_inert_witness :
    PipLookup.ReadPackagesFromFile (NewPipLookup false)
        (fun _ => .ok "foo==1.0 \\\n  and-more".toList) "requirements.txt".toList
      = PipLookup.ReadPackagesFromFile (NewPipLookup false)
        (fun _ => .ok "foo==1.0 \\\n  # comment\n  and-more".toList)
        "requirements.txt".toList
    ∧ (PipLookup.ReadPackagesFromFile (NewPipLookup false)
        (fun _ => .ok "foo==1.0 \\\n  # comment\n  and-more".toList)
        "requirements.txt".toList).1.Packages = ["foo".toList] :=
  ⟨(PipLookup.ReadPackagesFromFile_comment_and_blank_inert "  # comment".toList
      (Or.inr (by decide))).2 (NewPipLookup false)
      (fun _ => .ok "foo==1.0 \\\n  # comment\n  and-more".toList)
      (fun _ => .ok "foo==1.0 \\\n  and-more".toList)
      "requirements.txt".toList "requirements.txt".toList
      "foo==1.0 \\\n  # comment\n  and-more".toList 1 (by decide) rfl
      (congrArg Except.ok (by decide)),
    by decide⟩


/-! ## The requirements reader: logical lines of delimiters -/

theorem dropWhile_append_of_all (f : Char → Bool) (d y : GoString)
    (hd : ∀ c ∈ d, f c = true) : (d ++ y).dropWhile f = y.dropWhile f := by
  induction d with
  | nil => rfl
  | cons a ds ih =>
    have ha : f a = true := hd a (List.mem_cons_self _ _)
    rw [List.cons_append, List.dropWhile_cons_of_pos ha,
      ih (fun c hc => hd c (List.mem_cons_of_mem _ hc))]

theorem PipLookup.readLine_delimiter_buffer (d : GoString)
    (hd : ∀ c ∈ d, (NewPipLookup false).pipSplit c = true) (st : ReadState)
    (l : GoString) :
    ∃ d2 : GoString, (∀ c ∈ d2, (NewPipLookup false).pipSplit c = true)
      ∧ PipLookup.readLine { line := d ++ st.line, p := st.p } l
        = { line := d2 ++ (PipLookup.readLine st l).line,
            p := (PipLookup.readLine st l).p } := by
  by_cases hc : strings.HasPrefix (strings.TrimSpace l) ['#'] = true
  · exact ⟨d, hd, by rw [PipLookup.readLine_comment _ l hc, PipLookup.readLine_comment st l hc]⟩
  · have hc0 : strings.HasPrefix (strings.TrimSpace l) ['#'] = false := by simpa using hc
    by_cases he : strings.TrimSpace l = []
    · exact ⟨d, hd, by rw [PipLookup.readLine_blank _ l he, PipLookup.readLine_blank st l he]⟩
    · by_cases hb : strings.HasSuffix (strings.TrimSpace l) ['\\'] = true
      · refine ⟨d, hd, ?_⟩
        rw [PipLookup.readLine_continuation _ l hc0 hb,
          PipLookup.readLine_continuation st l hc0 hb]
        simp
      · have hb0 : strings.HasSuffix (strings.TrimSpace l) ['\\'] = false := by
          simpa using hb
        refine ⟨[], by simp, ?_⟩
        rw [PipLookup.readLine_complete _ l he hc0 hb0,
          PipLookup.readLine_complete st l he hc0 hb0]
        simp only [strings.FieldsFunc_head?, List.append_assoc, List.nil_append]
        rw [dropWhile_append_of_all st.p.pipSplit d _ hd]

theorem PipLookup.foldl_readLine_delimiter_buffer (rest : List GoString) :
    ∀ (d : GoString), (∀ c ∈ d, (NewPipLookup false).pipSplit c = true) →
    ∀ st : ReadState,
      (rest.foldl PipLookup.readLine { line := d ++ st.line, p := st.p }).p
        = (rest.foldl PipLookup.readLine st).p := by
  induction rest with
  | nil => intro d _ st; rfl
  | cons l rest ih =>
    intro d hd st
    obtain ⟨d2, hd2, hstep⟩ := PipLookup.readLine_delimiter_buffer d hd st l
    rw [List.foldl_cons, List.foldl_cons, hstep]
    exact ih d2 hd2 (PipLookup.readLine st l)

/-- C15: a completed logical line that holds delimiters only appends nothing
and empties the pending buffer; the lines that follow give the same resolver
as if the physical line that completed it were absent, and so does the file
from which that line is deleted. -/
theorem PipLookup.readLine_only_delimiters (st : ReadState) (l : GoString)
    (hne : strings.TrimSpace l ≠ [])
    (hc : strings.HasPrefix (strings.TrimSpace l) ['#'] = false)
    (hb : strings.HasSuffix (strings.TrimSpace l) ['\\'] = false)
    (hall : ∀ c ∈ st.line ++ strings.TrimSpace l, st.p.pipSplit c = true) :
    PipLookup.readLine st l = { line := [], p := st.p }
    ∧ (∀ rest : List GoString,
        (rest.foldl PipLookup.readLine (PipLookup.readLine st l)).p
          = (rest.foldl PipLookup.readLine st).p)
    ∧ (∀ (p0 : PipLookup) (fs fs0 : FileSystem) (filename filename0 content : GoString)
        (i : Nat),
        (strings.Split content '\n')[i]? = some l →
        ((strings.Split content '\n').take i).foldl PipLookup.readLine
          { line := [], p := p0 } = st →
        fs filename = .ok content →
        fs0 filename0 = .ok (joinLines ((strings.Split content '\n').eraseIdx i)) →
        p0.ReadPackagesFromFile fs0 filename0 = p0.ReadPackagesFromFile fs filename) := by
  have hstep : PipLookup.readLine st l = { line := [], p := st.p } := by
    rw [PipLookup.readLine_complete st l hne hc hb, strings.FieldsFunc_head?]
    have hd : (st.line ++ strings.TrimSpace l).dropWhile st.p.pipSplit = [] := by
      rw [List.dropWhile_eq_nil_iff]
      exact hall
    simp [hd]
  have hrest : ∀ rest : List GoString,
      (rest.foldl PipLookup.readLine (PipLookup.readLine st l)).p
        = (rest.foldl PipLookup.readLine st).p := by
    intro rest
    rw [hstep]
    have h := PipLookup.foldl_readLine_delimiter_buffer rest st.line
      (fun c hc => hall c (List.mem_append_left _ hc)) { line := [], p := st.p }
    simp only [List.append_nil] at h
    exact h.symm
  refine ⟨hstep, hrest, ?_⟩
  intro p0 fs fs0 filename filename0 content i hi hpre hread hread0
  simp only [PipLookup.ReadPackagesFromFile, hread, hread0]
  rw [PipLookup.foldl_readLine_joinLines _ _
    (fun x hx => strings.Split_not_mem '\n' content x (List.mem_of_mem_eraseIdx hx))]
  obtain ⟨hsplit, herase⟩ := eraseIdx_split_at _ i l hi
  rw [herase]
  conv_rhs => rw [hsplit]
  simp only [List.foldl_append, List.foldl_cons, hpre]
  rw [hrest]

/-- C15, at a concrete file: the line `==` between `requests` and `numpy`
appends nothing, and the file yields what it yields without that line. -/
theorem PipLookup.readLine_only_delimiters_witness :
    PipLookup.readLine { line := [], p := { Packages := ["requests".toList], Verbose := false } }
        "==".toList
      = { line := [], p := { Packages := ["requests".toList], Verbose := false } }
    ∧ (PipLookup.ReadPackagesFromFile (NewPipLookup false)
        (fun _ => .ok "requests\n==\nnumpy".toList) "requirements.txt".toList).1.Packages
      = ["requests".toList, "numpy".toList] :=
  ⟨(PipLookup.readLine_only_delimiters
      { line := [], p := { Packages := ["requests".toList], Verbose := false } }
      "==".toList (by decide) (by decide) (by decide) (by decide)).1,
    by decide⟩


/-! ## The registry existence check: what is written -/

theorem PipLookup.isAvailableInPublic_snd (p : PipLookup) (get : HttpGet)
    (pkgname : GoString) (out : List Output) :
    (p.isAvailableInPublic get pkgname out).2 = out ++ lookupWrites p.Verbose get pkgname := by
  have hurl : "https://pypi.org/project/".toList ++ pkgname ++ "/".toList
      = projectURL pkgname := rfl
  have hchk : "Checking: https://pypi.org/project/".toList ++ pkgname ++ "/ : ".toList
      = "Checking: ".toList ++ projectURL pkgname ++ " : ".toList := by
    simp [projectURL]
  have hwarn : " [W] Error when trying to request https://pypi.org/project/".toList
        ++ pkgname ++ "/ : %s\n".toList
      = " [W] Error when trying to request ".toList ++ projectURL pkgname
        ++ " : %s\n".toList := by
    simp [projectURL]
  unfold PipLookup.isAvailableInPublic lookupWrites checkingWrite warningWrite statusWrite
  rw [hurl, hchk, hwarn]
  cases get (projectURL pkgname) with
  | error err => cases p.Verbose <;> simp
  | ok resp =>
    by_cases hs : resp.StatusCode = http.StatusOK <;> cases p.Verbose <;> simp [hs]

theorem PipenvLookup.isAvailableInPublic_snd_pipenv (p : PipenvLookup) (get : HttpGet)
    (pkgname : GoString) (out : List Output) :
    (p.isAvailableInPublic get pkgname out).2 = out ++ lookupWrites p.Verbose get pkgname := by
  have hurl : "https://pypi.org/project/".toList ++ pkgname ++ "/".toList
      = projectURL pkgname := rfl
  have hchk : "Checking: https://pypi.org/project/".toList ++ pkgname ++ "/ : ".toList
      = "Checking: ".toList ++ projectURL pkgname ++ " : ".toList := by
    simp [projectURL]
  have hwarn : " [W] Error when trying to request https://pypi.org/project/".toList
        ++ pkgname ++ "/ : %s\n".toList
      = " [W] Error when trying to request ".toList ++ projectURL pkgname
        ++ " : %s\n".toList := by
    simp [projectURL]
  unfold PipenvLookup.isAvailableInPublic lookupWrites checkingWrite warningWrite statusWrite
  rw [hurl, hchk, hwarn]
  cases get (projectURL pkgname) with
  | error err => cases p.Verbose <;> simp
  | ok resp =>
    by_cases hs : resp.StatusCode = http.StatusOK <;> cases p.Verbose <;> simp [hs]

/-- C16 (as stated, refuted): a resolver of either kind constructed with
`verbose = false` looks up `foo`, the request fails, and the warning is
written to an output that was empty. -/
theorem isAvailableInPublic_warns_when_not_verbose :
    (PipLookup.isAvailableInPublic (NewPipLookup false)
        (fun _ => .error { msg := "connection refused".toList }) "foo".toList []).2
      = [Output.Printf
          " [W] Error when trying to request https://pypi.org/project/foo/ : %s\n".toList
          ["connection refused".toList]]
    ∧ (PipenvLookup.isAvailableInPublic (NewPipenvLookup false)
        (fun _ => .error { msg := "connection refused".toList }) "foo".toList []).2
      = [Output.Printf
          " [W] Error when trying to request https://pypi.org/project/foo/ : %s\n".toList
          ["connection refused".toList]]
    ∧ (PipLookup.isAvailableInPublic (NewPipLookup false)
        (fun _ => .error { msg := "connection refused".toList }) "foo".toList []).2 ≠ [] := by
  decide

/-- C16 (amended): what `isAvailableInPublic`, of both readers, adds to the
output.  With `Verbose` false it writes nothing when the request completes,
whatever the status, and it writes the warning when the request fails; with
`Verbose` true it writes the URL before the request and, after it, the status
line of the response or the warning. -/
theorem isAvailableInPublic_writes :
    (∀ (p : PipLookup) (get : HttpGet) (pkgname : GoString) (out : List Output),
      (p.isAvailableInPublic get pkgname out).2 = out ++ lookupWrites p.Verbose get pkgname)
    ∧ (∀ (p : PipenvLookup) (get : HttpGet) (pkgname : GoString) (out : List Output),
      (p.isAvailableInPublic get pkgname out).2 = out ++ lookupWrites p.Verbose get pkgname)
    ∧ (∀ (get : HttpGet) (pkgname : GoString),
      (∀ resp, get (projectURL pkgname) = .ok resp →
        lookupWrites false get pkgname = []
        ∧ lookupWrites true get pkgname = [checkingWrite pkgname, statusWrite resp])
      ∧ (∀ err, get (projectURL pkgname) = .error err →
        lookupWrites false get pkgname = [warningWrite pkgname err]
        ∧ lookupWrites true get pkgname
            = [checkingWrite pkgname, warningWrite pkgname err])) := by
  refine ⟨PipLookup.isAvailableInPublic_snd, PipenvLookup.isAvailableInPublic_snd_pipenv, ?_⟩
  intro get pkgname
  refine ⟨fun resp h => ?_, fun err h => ?_⟩ <;> simp [lookupWrites, h]


/-! ## The requirements reader: the shape of the names -/

/-- C17 (the code at the failing input): the file whose only line is `=`, a
tab, `=` has the first field `tab`, which `TrimSpace` empties: the name
appended is the empty string, and `PackagesNotInPublic` then requests the URL
`https://pypi.org/project//`.  A no-break space in place of the tab, or a
field of white space formed across a continuation, does the same. -/
theorem PipLookup.ReadPackagesFromFile_appends_empty_name :
    (PipLookup.ReadPackagesFromFile (NewPipLookup false)
        (fun _ => .ok "=\t=".toList) "requirements.txt".toList).1.Packages = [[]]
    ∧ strings.FieldsFunc "=\t=".toList (NewPipLookup false).pipSplit = ["\t".toList]
    ∧ strings.TrimSpace "\t".toList = []
    ∧ (PipLookup.ReadPackagesFromFile (NewPipLookup false)
        (fun _ => .ok "requests\n=\u00a0=1.0".toList) "requirements.txt".toList).1.Packages
        = ["requests".toList, []]
    ∧ (PipLookup.ReadPackagesFromFile (NewPipLookup false)
        (fun _ => .ok "=\t\\\n=1.0".toList) "requirements.txt".toList).1.Packages = [[]]
    ∧ projectURL [] = "https://pypi.org/project//".toList
    ∧ (PipLookup.PackagesNotInPublic { Packages := [[]], Verbose := true }
        (mockRegistry []) []).out
        = [Output.Print "Checking: https://pypi.org/project// : ".toList,
           Output.Printf "%s\n".toList ["404 Not Found".toList]] := by
  decide

theorem strings.TrimSpace_subset (s : GoString) : ∀ c ∈ strings.TrimSpace s, c ∈ s := by
  intro c hc
  have h1 : c ∈ s.dropWhile unicode.IsSpace :=
    (List.rdropWhile_prefix unicode.IsSpace _).subset hc
  exact (List.dropWhile_suffix unicode.IsSpace).subset h1

theorem strings.TrimSpace_head_not_space (s : GoString) (c : Char)
    (h : (strings.TrimSpace s).head? = some c) : unicode.IsSpace c = false := by
  unfold strings.TrimSpace at h
  obtain ⟨z, hz⟩ := List.rdropWhile_prefix unicode.IsSpace (s.dropWhile unicode.IsSpace)
  cases hr : List.rdropWhile unicode.IsSpace (s.dropWhile unicode.IsSpace) with
  | nil => rw [hr] at h; simp at h
  | cons a r =>
    rw [hr] at h hz
    have hac : a = c := by simpa using h
    have hnot := List.head?_dropWhile_not unicode.IsSpace s
    rw [← hz] at hnot
    simpa [hac] using hnot

theorem strings.TrimSpace_last_not_space (s : GoString) (c : Char)
    (h : (strings.TrimSpace s).getLast? = some c) : unicode.IsSpace c = false := by
  unfold strings.TrimSpace at h
  have hne : List.rdropWhile unicode.IsSpace (s.dropWhile unicode.IsSpace) ≠ [] := by
    intro e
    rw [e] at h
    simp at h
  have hlast := List.rdropWhile_last_not unicode.IsSpace (s.dropWhile unicode.IsSpace) hne
  rw [List.getLast?_eq_getLast _ hne] at h
  have hc : (List.rdropWhile unicode.IsSpace (s.dropWhile unicode.IsSpace)).getLast hne = c := by
    simpa using h
  rw [hc] at hlast
  simpa using hlast

theorem PipLookup.readLine_names_clean (st : ReadState) (l : GoString)
    (Q : GoString → Prop)
    (hQ : ∀ s : GoString, (∀ c ∈ s, st.p.pipSplit c = false) → Q (strings.TrimSpace s))
    (hst : ∀ name ∈ st.p.Packages, Q name) :
    ∀ name ∈ (PipLookup.readLine st l).p.Packages, Q name := by
  by_cases hc : strings.HasPrefix (strings.TrimSpace l) ['#'] = true
  · rw [PipLookup.readLine_comment st l hc]; exact hst
  · have hc0 : strings.HasPrefix (strings.TrimSpace l) ['#'] = false := by simpa using hc
    by_cases he : strings.TrimSpace l = []
    · rw [PipLookup.readLine_blank st l he]; exact hst
    · by_cases hb : strings.HasSuffix (strings.TrimSpace l) ['\\'] = true
      · rw [PipLookup.readLine_continuation st l hc0 hb]; exact hst
      · have hb0 : strings.HasSuffix (strings.TrimSpace l) ['\\'] = false := by
          simpa using hb
        rw [PipLookup.readLine_complete st l he hc0 hb0, strings.FieldsFunc_head?]
        intro name hname
        simp only [List.mem_append] at hname
        rcases hname with h | h
        · exact hst name h
        · split at h
          · simp at h
          · simp only [Option.map_some', Option.toList_some, List.mem_singleton] at h
            rw [h]
            apply hQ
            intro c hmem
            have := List.mem_takeWhile_imp hmem
            simpa using this

theorem PipLookup.foldl_readLine_names_clean (Q : GoString → Prop)
    (hQ : ∀ s : GoString, (∀ c ∈ s, (NewPipLookup false).pipSplit c = false) →
      Q (strings.TrimSpace s))
    (lines : List GoString) :
    ∀ st : ReadState, (∀ name ∈ st.p.Packages, Q name) →
      ∀ name ∈ (lines.foldl PipLookup.readLine st).p.Packages, Q name := by
  induction lines with
  | nil => intro st hst; exact hst
  | cons l rest ih =>
    intro st hst
    rw [List.foldl_cons]
    exact ih _ (PipLookup.readLine_names_clean st l Q hQ hst)


theorem PipLookup.pipSplit_eq_false_iff (p : PipLookup) (c : Char) :
    p.pipSplit c = false ↔ c ∉ ['=', '<', '>', '!', ' ', '~', '#', '['] := by
  simp only [PipLookup.pipSplit, inSlice, List.any_eq_false, beq_iff_eq]
  constructor
  · intro h hmem
    exact h c hmem rfl
  · intro h d hd hdc
    exact h (hdc ▸ hd)

/-- C18: every name that `ReadPackagesFromFile` of the requirements reader
appends holds none of the delimiters `=`, `<`, `>`, `!`, space, `~`, `#`, `[`,
and neither begins nor ends with white space: each name of the list after the
call was in the list before the call or has that shape. -/
theorem PipLookup.ReadPackagesFromFile_names_free_of_specifiers (p : PipLookup)
    (fs : FileSystem) (filename content : GoString) (hread : fs filename = .ok content) :
    ∀ name ∈ (p.ReadPackagesFromFile fs filename).1.Packages,
      name ∈ p.Packages
      ∨ ((∀ c ∈ name, c ∉ ['=', '<', '>', '!', ' ', '~', '#', '['])
        ∧ (∀ c, name.head? = some c → unicode.IsSpace c = false)
        ∧ (∀ c, name.getLast? = some c → unicode.IsSpace c = false)) := by
  simp only [PipLookup.ReadPackagesFromFile, hread]
  apply PipLookup.foldl_readLine_names_clean
  · intro s hs
    refine Or.inr ⟨fun c hc => ?_, strings.TrimSpace_head_not_space s,
      strings.TrimSpace_last_not_space s⟩
    exact (PipLookup.pipSplit_eq_false_iff _ c).mp (hs c (strings.TrimSpace_subset s c hc))
  · intro name hname
    exact Or.inl hname

/-- C18, at a concrete file: the name `numpy`, read from the line
`  numpy >= 1.20 # pinned`, holds no delimiter and no white space at its
ends. -/
theorem PipLookup.ReadPackagesFromFile_names_free_of_specifiers_witness :
    (PipLookup.ReadPackagesFromFile (NewPipLookup false)
        (fun _ => .ok "  numpy >= 1.20 # pinned".toList) "requirements.txt".toList).1.Packages
      = ["numpy".toList]
    ∧ ("numpy".toList ∈ (NewPipLookup false).Packages
      ∨ ((∀ c ∈ "numpy".toList, c ∉ ['=', '<', '>', '!', ' ', '~', '#', '['])
        ∧ (∀ c, "numpy".toList.head? = some c → unicode.IsSpace c = false)
        ∧ (∀ c, "numpy".toList.getLast? = some c → unicode.IsSpace c = false))) :=
  ⟨by decide,
    PipLookup.ReadPackagesFromFile_names_free_of_specifiers (NewPipLookup false)
      (fun _ => .ok "  numpy >= 1.20 # pinned".toList) "requirements.txt".toList
      "  numpy >= 1.20 # pinned".toList rfl "numpy".toList (by decide)⟩

/-! ## Failure leaves the resolver as it was -/

/-- C19: `ReadPackagesFromFile` is atomic on failure.  When the requirements
reader returns an error, and when the Pipfile reader returns an error, the
resolver after the call is the resolver before it; a read error is returned
so by both readers, and a parse error by the Pipfile reader. -/
theorem ReadPackagesFromFile_atomic_on_error :
    (∀ (p : PipLookup) (fs : FileSystem) (filename : GoString) (err : Error),
      (p.ReadPackagesFromFile fs filename).2 = some err →
      (p.ReadPackagesFromFile fs filename).1 = p)
    ∧ (∀ (p p2 : PipenvLookup) (fs : FileSystem) (load : TomlLoad)
        (order1 order2 : RangeOrder) (filename : GoString) (err : Error),
      p.ReadPackagesFromFile fs load order1 order2 filename = .returned p2 (some err) →
      p2 = p)
    ∧ (∀ (p : PipLookup) (fs : FileSystem) (filename : GoString) (err : Error),
      fs filename = .error err → p.ReadPackagesFromFile fs filename = (p, some err))
    ∧ (∀ (p : PipenvLookup) (fs : FileSystem) (load : TomlLoad)
        (order1 order2 : RangeOrder) (filename : GoString) (err : Error),
      fs filename = .error err →
      p.ReadPackagesFromFile fs load order1 order2 filename = .returned p (some err))
    ∧ (∀ (p : PipenvLookup) (fs : FileSystem) (load : TomlLoad)
        (order1 order2 : RangeOrder) (filename rawfile : GoString) (err : Error),
      fs filename = .ok rawfile → load rawfile = .error err →
      p.ReadPackagesFromFile fs load order1 order2 filename = .returned p (some err)) := by
  refine ⟨?_, ?_, ?_, ?_, ?_⟩
  · intro p fs filename err h
    unfold PipLookup.ReadPackagesFromFile at h ⊢
    cases hfs : fs filename with
    | error e => rfl
    | ok content => rw [hfs] at h; simp at h
  · intro p p2 fs load order1 order2 filename err h
    unfold PipenvLookup.ReadPackagesFromFile at h
    cases hfs : fs filename with
    | error e =>
      rw [hfs] at h
      simp only [Outcome.returned.injEq] at h
      exact h.1.symm
    | ok rawfile =>
      rw [hfs] at h
      simp only at h
      cases hload : load rawfile with
      | error e =>
        rw [hload] at h
        simp only [Outcome.returned.injEq] at h
        exact h.1.symm
      | ok config =>
        rw [hload] at h
        simp only at h
        cases h1 : config.Get "packages".toList with
        | none =>
          rw [h1] at h
          simp only at h
          cases h2 : config.Get "dev-packages".toList with
          | none => rw [h2] at h; simp at h
          | some node2 => rw [h2] at h; cases node2 <;> simp at h
        | some node1 =>
          rw [h1] at h
          cases node1 with
          | value v => simp at h
          | trees ts => simp at h
          | tree t1 =>
            simp only at h
            cases h2 : config.Get "dev-packages".toList with
            | none => rw [h2] at h; simp at h
            | some node2 => rw [h2] at h; cases node2 <;> simp at h
  · intro p fs filename err h
    simp [PipLookup.ReadPackagesFromFile, h]
  · intro p fs load order1 order2 filename err h
    simp [PipenvLookup.ReadPackagesFromFile, h]
  · intro p fs load order1 order2 filename rawfile err h hl
    simp [PipenvLookup.ReadPackagesFromFile, h, hl]

end Confused
